import Mathlib

/-
A shallow embedding of the Pyramid (Match-13) Solitaire rules engine from
`src/pyramid.py`, together with proofs about its game-state operations.

Modelling conventions:
- Python lists become Lean `List`s in the same order; `list.pop()` becomes
  `List.dropLast` plus `List.getLast?` (the "top" of stock/waste/history is
  the last element, as in the source), and `list.append(x)` becomes
  `l ++ [x]`.
- Python `int` becomes `Int`; indices that the source always uses as
  non-negative list positions become `Nat`.
- The pseudo-random shuffle (`random.Random(seed).shuffle`, Python standard
  library, outside this repository) permutes the fresh 52-card deck; for a
  provided integer seed the permutation is a deterministic function of that
  seed alone, abstracted as an explicit function parameter, but
  `random.Random(None)` seeds from fresh OS entropy, so wherever repeated
  shuffles matter (`GameState.reset`) the per-call deck drawn in the
  `seed = None` case is an explicit `entropy` argument.
- Reading `rows[row][col]` is modelled with `List.getD`; every theorem below
  only evaluates these reads at indices that are in range (where the Python
  source would not raise `IndexError`).
-/

/-! ## Cards -/

inductive Rank
  | ace | two | three | four | five | six | seven | eight | nine | ten
  | jack | queen | king
deriving DecidableEq

inductive Suit
  | clubs | diamonds | hearts | spades
deriving DecidableEq

/-- A single playing card, as in the frozen `Card` dataclass: a rank and a suit. -/
structure Card where
  rank : Rank
  suit : Suit
deriving DecidableEq

/-- The `VALUES` table: A=1, 2..10 face value, J=11, Q=12, K=13. -/
def Card.value (c : Card) : Nat :=
  match c.rank with
  | .ace => 1 | .two => 2 | .three => 3 | .four => 4 | .five => 5
  | .six => 6 | .seven => 7 | .eight => 8 | .nine => 9 | .ten => 10
  | .jack => 11 | .queen => 12 | .king => 13

/-- The `RANKS` list from the source, in order. -/
def RANKS : List Rank :=
  [.ace, .two, .three, .four, .five, .six, .seven, .eight, .nine, .ten,
   .jack, .queen, .king]

/-- The `SUITS` list from the source, in order. -/
def SUITS : List Suit := [.clubs, .diamonds, .hearts, .spades]

/-- The fresh (unshuffled) deck built in `Deck.__init__`:
`[Card(rank, suit) for suit in SUITS for rank in RANKS]`. -/
def freshDeckCards : List Card :=
  (SUITS.map (fun s => RANKS.map (fun r => ⟨r, s⟩))).flatten

/-! ## Generic grid helpers

`Pyramid.rows` and `Pyramid.removed` are lists of lists indexed by
`[row][col]`.  `getCell`/`setCell` model the reads and writes
`g[row][col]` and `g[row][col] = v` of the source. -/

def getCell {α : Type} (g : List (List α)) (d : α) (a b : Nat) : α :=
  (g.getD a []).getD b d

def setCell {α : Type} (g : List (List α)) (a b : Nat) (v : α) : List (List α) :=
  g.set a ((g.getD a []).set b v)

section ListLemmas

variable {α : Type}

theorem getD_set_self (l : List α) (n : Nat) (v d : α) (h : n < l.length) :
    (l.set n v).getD n d = v := by
  induction l generalizing n with
  | nil => simp at h
  | cons x xs ih =>
    cases n with
    | zero => rfl
    | succ m => simpa using ih m (by simpa using h)

theorem getD_set_ne (l : List α) (n m : Nat) (v d : α) (h : n ≠ m) :
    (l.set n v).getD m d = l.getD m d := by
  induction l generalizing n m with
  | nil => simp
  | cons x xs ih =>
    cases n with
    | zero =>
      cases m with
      | zero => exact absurd rfl h
      | succ k => rfl
    | succ n' =>
      cases m with
      | zero => rfl
      | succ k => simpa using ih n' k (by omega)

theorem set_getD_self (l : List α) (n : Nat) (d : α) (h : n < l.length) :
    l.set n (l.getD n d) = l := by
  induction l generalizing n with
  | nil => simp at h
  | cons x xs ih =>
    cases n with
    | zero => rfl
    | succ m => simpa using ih m (by simpa using h)

theorem countP_set (l : List α) (n : Nat) (v d : α) (p : α → Bool)
    (h : n < l.length) :
    (l.set n v).countP p + (if p (l.getD n d) then 1 else 0)
      = l.countP p + (if p v then 1 else 0) := by
  induction l generalizing n with
  | nil => simp at h
  | cons x xs ih =>
    cases n with
    | zero =>
      simp only [List.set_cons_zero, List.getD_cons_zero, List.countP_cons]
      by_cases hv : p v <;> by_cases hx : p x <;> simp [hv, hx]
    | succ m =>
      have hm := ih m (by simpa using h)
      rw [List.set_cons_succ, List.getD_cons_succ, List.countP_cons,
        List.countP_cons]
      omega

theorem sum_set (l : List Nat) (n v : Nat) (h : n < l.length) :
    (l.set n v).sum + l.getD n 0 = l.sum + v := by
  induction l generalizing n with
  | nil => simp at h
  | cons x xs ih =>
    cases n with
    | zero => simp [List.set]; omega
    | succ m =>
      have := ih m (by simpa using h)
      simp only [List.set, List.sum_cons, List.getD_cons_succ]
      omega

theorem map_set (l : List α) (n : Nat) (v : α) {β : Type} (f : α → β) :
    (l.set n v).map f = (l.map f).set n (f v) := by
  induction l generalizing n with
  | nil => simp
  | cons x xs ih =>
    cases n with
    | zero => rfl
    | succ m => simp [ih m]

end ListLemmas

section GridLemmas

variable {α : Type}

theorem length_setCell (g : List (List α)) (a b : Nat) (v : α) :
    (setCell g a b v).length = g.length := by
  simp [setCell]

theorem getD_setCell_row_len (g : List (List α)) (a b r : Nat) (v : α) :
    ((setCell g a b v).getD r []).length = (g.getD r []).length := by
  by_cases hr : a = r
  · subst hr
    by_cases h : a < g.length
    · rw [setCell, getD_set_self _ _ _ _ h]; simp
    · have : g.set a ((g.getD a []).set b v) = g := by
        apply List.set_eq_of_length_le; omega
      rw [setCell, this]
  · rw [setCell, getD_set_ne _ _ _ _ _ hr]

theorem getCell_setCell_self (g : List (List α)) (d : α) (a b : Nat) (v : α)
    (ha : a < g.length) (hb : b < (g.getD a []).length) :
    getCell (setCell g a b v) d a b = v := by
  rw [getCell, setCell, getD_set_self _ _ _ _ ha, getD_set_self _ _ _ _ hb]

theorem getCell_setCell_ne (g : List (List α)) (d : α) (a b a' b' : Nat) (v : α)
    (h : a ≠ a' ∨ b ≠ b') :
    getCell (setCell g a b v) d a' b' = getCell g d a' b' := by
  rcases h with h | h
  · rw [getCell, setCell, getD_set_ne _ _ _ _ _ h]; rfl
  · by_cases ha : a = a'
    · subst ha
      by_cases hlen : a < g.length
      · rw [getCell, setCell, getD_set_self _ _ _ _ hlen,
          getD_set_ne _ _ _ _ _ h]
        rfl
      · have h1 : setCell g a b v = g := by
          rw [setCell]
          apply List.set_eq_of_length_le; omega
        rw [h1]
    · rw [getCell, setCell, getD_set_ne _ _ _ _ _ ha]; rfl

theorem setCell_setCell (g : List (List α)) (a b : Nat) (v w : α) :
    setCell (setCell g a b v) a b w = setCell g a b w := by
  by_cases ha : a < g.length
  · rw [setCell, setCell, setCell, getD_set_self _ _ _ _ ha, List.set_set,
      List.set_set]
  · have h1 : setCell g a b v = g := by
      rw [setCell]
      apply List.set_eq_of_length_le; omega
    rw [h1]

theorem setCell_getCell_self (g : List (List α)) (d : α) (a b : Nat)
    (ha : a < g.length) (hb : b < (g.getD a []).length) :
    setCell g a b (getCell g d a b) = g := by
  rw [setCell, getCell, set_getD_self _ _ _ hb, set_getD_self _ _ _ ha]

end GridLemmas

/-! ## Pyramid

`Pyramid.__init__` consumes cards row by row (row lengths 1..7), padding
with `None` once the iterator is exhausted (`next(iterator, None)`), and
builds a parallel grid of `removed` flags initialised to `False`. -/

/-- One row of `row_length` cells, consuming cards from the front of `cs`
and padding with `none` when `cs` runs out (`next(iterator, None)`).
Returns the row and the unconsumed cards. -/
def takeRow : Nat → List Card → List (Option Card) × List Card
  | 0, cs => ([], cs)
  | n + 1, [] => (none :: (takeRow n []).1, [])
  | n + 1, c :: cs => ((takeRow n cs).1.cons (some c), (takeRow n cs).2)

/-- Rows of the given lengths, filled left to right, top row first. -/
def buildRows : List Nat → List Card → List (List (Option Card))
  | [], _ => []
  | n :: ns, cs => (takeRow n cs).1 :: buildRows ns (takeRow n cs).2

/-- Seven-row pyramid of cards: the `rows` grid of optional cards and the
parallel `removed` flag grid, exactly as in the `Pyramid` class. -/
structure Pyramid where
  rows : List (List (Option Card))
  removed : List (List Bool)
deriving DecidableEq

/-- `Pyramid.__init__(cards)`: rows of lengths 1..7 plus the all-`False`
`removed` grid of the same shape. -/
def Pyramid.ofCards (cards : List Card) : Pyramid :=
  let rs := buildRows [1, 2, 3, 4, 5, 6, 7] cards
  ⟨rs, rs.map (fun row => row.map (fun _ => false))⟩

/-- `Pyramid.card_at`: read `rows[row][col]`. -/
def Pyramid.card_at (p : Pyramid) (row col : Nat) : Option Card :=
  getCell p.rows none row col

/-- `Pyramid.remove_card`: clear the cell and set the removed flag if a card
is present; returns the previous occupant. -/
def Pyramid.remove_card (p : Pyramid) (row col : Nat) : Option Card × Pyramid :=
  match p.card_at row col with
  | none => (none, p)
  | some c => (some c, ⟨setCell p.rows row col none, setCell p.removed row col true⟩)

/-- `Pyramid.restore_card`: reinstate a card and clear the removed flag. -/
def Pyramid.restore_card (p : Pyramid) (row col : Nat) (card : Card) : Pyramid :=
  ⟨setCell p.rows row col (some card), setCell p.removed row col false⟩

/-- `Pyramid.is_exposed`: a cell is exposed iff it holds a card and is in
the last row or has both cells below it empty. -/
def Pyramid.is_exposed (p : Pyramid) (row col : Nat) : Bool :=
  match p.card_at row col with
  | none => false
  | some _ =>
    if row == p.rows.length - 1 then true
    else (p.card_at (row + 1) col).isNone && (p.card_at (row + 1) (col + 1)).isNone

/-- `Pyramid.all_cards`: all `(row, col, card)` triples in row-major order
(`enumerate` over rows, then over cells). -/
def Pyramid.all_cards (p : Pyramid) : List (Nat × Nat × Option Card) :=
  (p.rows.enum.map (fun rc => rc.2.enum.map (fun cc => (rc.1, cc.1, cc.2)))).flatten

/-! ## Locations and moves -/

/-- The two kinds of card location the engine accepts: the source passes
tuples `("pyramid", row, col)` and `("waste", index, 0)`. -/
inductive LocKind
  | pyramid
  | waste
deriving DecidableEq

/-- A location tuple `(loc_type, a, b)`. -/
structure Location where
  kind : LocKind
  a : Nat
  b : Nat
deriving DecidableEq

/-- A move record, one variant per `Move.type` string used by the source,
carrying the same payload fields. -/
inductive Move
  | draw (card : Card)
  | remove_king_pyramid (row col : Nat) (card : Card)
  | remove_king_waste (card : Card)
  | remove_pair (cards : List (Location × Card))
  | redeal (stock_before waste_before : List Card)
deriving DecidableEq

/-! ## GameState -/

/-- Complete state for Pyramid Solitaire, with the same fields as the
`GameState` class.  Stock, waste and history are Python lists whose "top"
is the last element. -/
structure GameState where
  seed : Option Int
  max_redeals : Int
  history : List Move
  pyramid : Pyramid
  stock : List Card
  waste : List Card
  removed_count : Int
  redeals_used : Int
deriving DecidableEq

/-- `deck.deal()` iterated `n` times: pop from the end of the deck, in
order.  Returns the dealt cards (in deal order) and the remaining deck.
The engine only calls this with `n = 28` on a full 52-card deck, so the
empty-pop error case of Python's `list.pop` is never reached. -/
def dealMany : Nat → List Card → List Card × List Card
  | 0, cs => ([], cs)
  | n + 1, cs =>
    match cs.getLast? with
    | none => ([], cs)
    | some c => ((dealMany n cs.dropLast).1.cons c, (dealMany n cs.dropLast).2)

/-- `GameState.reset` given the already shuffled deck produced by
`Deck(self.seed)`: deal 28 cards into a fresh pyramid, keep the remaining
cards as the stock, clear waste, counters and history. -/
def GameState.resetFrom (s : GameState) (deckCards : List Card) : GameState :=
  { s with
    pyramid := Pyramid.ofCards (dealMany 28 deckCards).1
    stock := (dealMany 28 deckCards).2
    waste := []
    removed_count := 0
    redeals_used := 0
    history := [] }

/-- `GameState.reset()`: build `Deck(self.seed)` afresh and reset from it.
With a provided seed the resulting deck is a deterministic function of the
seed alone (`random.Random(k)`, passed in as `seededShuffle`); with
`seed = None` the source reseeds `random.Random` from fresh OS entropy on
every call, so the deck drawn by this particular call is the explicit
per-call argument `entropy`. -/
def GameState.reset (seededShuffle : Int → List Card → List Card)
    (entropy : List Card) (s : GameState) : GameState :=
  match s.seed with
  | some k => s.resetFrom (seededShuffle k freshDeckCards)
  | none => s.resetFrom entropy

/-- `GameState.__init__(seed, max_redeals)` given the already shuffled
deck: store the configuration, start with empty history, and reset. -/
def GameState.newGameFrom (deckCards : List Card) (seed : Option Int)
    (max_redeals : Int) : GameState :=
  GameState.resetFrom
    { seed := seed, max_redeals := max_redeals, history := [],
      pyramid := Pyramid.ofCards [], stock := [], waste := [],
      removed_count := 0, redeals_used := 0 }
    deckCards

/-- `GameState.__init__(seed, max_redeals)` with the shuffle function made
explicit. -/
def GameState.newGame (shuffle : Option Int → List Card → List Card)
    (seed : Option Int) (max_redeals : Int) : GameState :=
  GameState.newGameFrom (shuffle seed freshDeckCards) seed max_redeals

/-- `GameState.card_exposed`: pyramid locations defer to `is_exposed`;
waste locations are exposed iff the waste is non-empty and the index is
the top index. -/
def GameState.card_exposed (s : GameState) (loc : Location) : Bool :=
  match loc.kind with
  | .pyramid => s.pyramid.is_exposed loc.a loc.b
  | .waste => !s.waste.isEmpty && loc.a == s.waste.length - 1

/-- `GameState.remove_pyramid_card`: remove from the pyramid and increment
`removed_count` if a card was actually there. -/
def GameState.remove_pyramid_card (s : GameState) (row col : Nat) :
    Option Card × GameState :=
  match s.pyramid.remove_card row col with
  | (some c, p) => (some c, { s with pyramid := p, removed_count := s.removed_count + 1 })
  | (none, p) => (none, { s with pyramid := p })

/-- `GameState.restore_pyramid_card`: restore into the pyramid and
decrement `removed_count`. -/
def GameState.restore_pyramid_card (s : GameState) (row col : Nat)
    (card : Card) : GameState :=
  { s with pyramid := s.pyramid.restore_card row col card,
           removed_count := s.removed_count - 1 }

/-- `GameState.draw`: pop the stock top onto the waste and record a `draw`
move; false without state change when the stock is empty. -/
def GameState.draw (s : GameState) : Bool × GameState :=
  match s.stock.getLast? with
  | none => (false, s)
  | some card =>
    (true, { s with
      stock := s.stock.dropLast
      waste := s.waste ++ [card]
      history := s.history ++ [Move.draw card] })

/-- The assertion at the top of `GameState.undo_draw`:
`assert self.waste and self.waste[-1] == card`. -/
def undoDrawAssertion (s : GameState) (card : Card) : Prop :=
  s.waste ≠ [] ∧ s.waste.getLast? = some card

/-- `GameState.undo_draw` (body after the assertion): pop the waste top
back onto the stock. -/
def GameState.undo_draw (s : GameState) (card : Card) : GameState :=
  { s with waste := s.waste.dropLast, stock := s.stock ++ [card] }

/-- `GameState.remove_king`: pyramid branch requires a present, exposed
King at the cell; waste branch requires a non-empty waste with a King on
top (the location indices are not inspected in the waste branch). -/
def GameState.remove_king (s : GameState) (loc : Location) : Bool × GameState :=
  match loc.kind with
  | .pyramid =>
    match s.pyramid.card_at loc.a loc.b with
    | some card =>
      if card.value == 13 && s.pyramid.is_exposed loc.a loc.b then
        let s' := (s.remove_pyramid_card loc.a loc.b).2
        (true, { s' with
          history := s'.history ++ [Move.remove_king_pyramid loc.a loc.b card] })
      else (false, s)
    | none => (false, s)
  | .waste =>
    match s.waste.getLast? with
    | some card =>
      if card.value == 13 then
        (true, { s with
          waste := s.waste.dropLast
          history := s.history ++ [Move.remove_king_waste card] })
      else (false, s)
    | none => (false, s)

/-- `GameState.get_card`: pyramid cells via `card_at`; a waste location
yields the top card only when the waste is non-empty and the index is the
top index. -/
def GameState.get_card (s : GameState) (loc : Location) : Option Card :=
  match loc.kind with
  | .pyramid => s.pyramid.card_at loc.a loc.b
  | .waste =>
    if !s.waste.isEmpty && loc.a == s.waste.length - 1 then s.waste.getLast?
    else none

/-- One iteration of the removal loop in `GameState.remove_pair`: remove
the card at `loc` (if any) and append it to the `removed_cards`
accumulator. -/
def GameState.removeAtLoc (s : GameState) (loc : Location)
    (acc : List (Location × Card)) : GameState × List (Location × Card) :=
  match loc.kind with
  | .pyramid =>
    match s.remove_pyramid_card loc.a loc.b with
    | (some c, s') => (s', acc ++ [(loc, c)])
    | (none, s') => (s', acc)
  | .waste =>
    match s.waste.getLast? with
    | some c => ({ s with waste := s.waste.dropLast }, acc ++ [(loc, c)])
    | none => (s, acc)

/-- The loop shared by the `remove_pair` rollback path and the
`remove_pair` case of `undo`: put the recorded cards back, iterating over
`reversed(cards)`. -/
def GameState.restoreRemoved (s : GameState) (cards : List (Location × Card)) :
    GameState :=
  cards.reverse.foldl
    (fun st lc =>
      match lc.1.kind with
      | .pyramid => st.restore_pyramid_card lc.1.a lc.1.b lc.2
      | .waste => { st with waste := st.waste ++ [lc.2] })
    s

/-- `GameState.remove_pair`: validity checks (distinct locations, both
cards present, values summing to 13, both exposed) before any mutation,
then the removal loop, then the defensive length check with rollback. -/
def GameState.remove_pair (s : GameState) (first second : Location) :
    Bool × GameState :=
  if first = second then (false, s)
  else
    match s.get_card first, s.get_card second with
    | some card_a, some card_b =>
      if card_a.value + card_b.value ≠ 13 then (false, s)
      else if !s.card_exposed first || !s.card_exposed second then (false, s)
      else
        let r1 := s.removeAtLoc first []
        let r2 := r1.1.removeAtLoc second r1.2
        if r2.2.length = 2 then
          (true, { r2.1 with history := r2.1.history ++ [Move.remove_pair r2.2] })
        else (false, r2.1.restoreRemoved r2.2)
    | _, _ => (false, s)

/-- `GameState.undo`: pop the last move and apply its exact inverse. -/
def GameState.undo (s : GameState) : Bool × GameState :=
  match s.history.getLast? with
  | none => (false, s)
  | some move =>
    let s0 := { s with history := s.history.dropLast }
    match move with
    | .draw card => (true, s0.undo_draw card)
    | .remove_king_pyramid row col card =>
      (true, s0.restore_pyramid_card row col card)
    | .remove_king_waste card => (true, { s0 with waste := s0.waste ++ [card] })
    | .remove_pair cards => (true, s0.restoreRemoved cards)
    | .redeal stock_before waste_before =>
      (true, { s0 with
        stock := stock_before
        waste := waste_before
        redeals_used := s0.redeals_used - 1 })

/-- `GameState.redeal`: fails when no redeal is left or the waste is empty;
otherwise snapshots stock and waste, appends the reversed waste to the
stock, clears the waste, and counts the redeal. -/
def GameState.redeal (s : GameState) : Bool × GameState :=
  if s.redeals_used ≥ s.max_redeals then (false, s)
  else if s.waste.isEmpty then (false, s)
  else
    (true, { s with
      stock := s.stock ++ s.waste.reverse
      waste := []
      redeals_used := s.redeals_used + 1
      history := s.history ++ [Move.redeal s.stock s.waste] })

/-- `GameState.has_won`: `removed_count >= 28`. -/
def GameState.has_won (s : GameState) : Bool := s.removed_count ≥ 28

/-- Values of the exposed pyramid cards collected by the scan in
`GameState.legal_moves_remaining`, in row-major order. -/
def GameState.exposedPyramidValues (s : GameState) : List Nat :=
  s.pyramid.all_cards.filterMap
    (fun rcc =>
      match rcc.2.2 with
      | some card =>
        if s.pyramid.is_exposed rcc.1 rcc.2.1 then some card.value else none
      | none => none)

/-- The pairwise scan at the end of `legal_moves_remaining`: is there a
pair of positions `i < j` whose values sum to 13? -/
def hasPairSum13 : List Nat → Bool
  | [] => false
  | v :: rest => rest.any (fun w => v + w == 13) || hasPairSum13 rest

/-- `GameState.legal_moves_remaining`, with the same early-return
structure as the source: stock/redeal first, then exposed pyramid Kings,
then the waste top, then the pairwise sum-13 scan. -/
def GameState.legal_moves_remaining (s : GameState) : Bool :=
  if !s.stock.isEmpty || (!s.waste.isEmpty && decide (s.redeals_used < s.max_redeals))
  then true
  else
    let pvals := s.exposedPyramidValues
    if pvals.any (fun v => v == 13) then true
    else
      match s.waste.getLast? with
      | some card =>
        if card.value == 13 then true else hasPairSum13 (pvals ++ [card.value])
      | none => hasPairSum13 pvals

/-- The five player-facing commands whose outcomes the spec discusses. -/
inductive Cmd
  | draw
  | removeKing (loc : Location)
  | removePair (locA locB : Location)
  | redeal
  | undo
deriving DecidableEq

/-- Dispatch a command to the corresponding `GameState` operation. -/
def GameState.applyCmd (s : GameState) : Cmd → Bool × GameState
  | .draw => s.draw
  | .removeKing loc => s.remove_king loc
  | .removePair locA locB => s.remove_pair locA locB
  | .redeal => s.redeal
  | .undo => s.undo

/-! ## Small list facts used throughout -/

theorem dropLast_append_of_getLast? {α : Type} (l : List α) (c : α)
    (h : l.getLast? = some c) : l.dropLast ++ [c] = l := by
  cases l using List.reverseRecOn with
  | nil => simp at h
  | append_singleton xs x => simp_all

theorem ne_nil_of_getLast? {α : Type} (l : List α) (c : α)
    (h : l.getLast? = some c) : l ≠ [] := by
  rintro rfl; simp at h

theorem length_dropLast_of_getLast? {α : Type} (l : List α) (c : α)
    (h : l.getLast? = some c) : l.dropLast.length + 1 = l.length := by
  have hne := ne_nil_of_getLast? l c h
  have hpos : 0 < l.length := List.length_pos.mpr hne
  rw [List.length_dropLast]
  omega

/-- A successful `card_at` read implies the indices are in range. -/
theorem Pyramid.card_at_bounds (p : Pyramid) (a b : Nat) (c : Card)
    (h : p.card_at a b = some c) :
    a < p.rows.length ∧ b < (p.rows.getD a []).length := by
  rw [Pyramid.card_at, getCell] at h
  have ha : a < p.rows.length := by
    by_contra hlt
    have h0 : p.rows.getD a [] = [] := by
      rw [List.getD_eq_getElem?_getD, List.getElem?_eq_none (by omega)]
      rfl
    rw [h0] at h
    simp at h
  refine ⟨ha, ?_⟩
  by_contra hlt
  rw [List.getD_eq_getElem?_getD, List.getElem?_eq_none (by omega)] at h
  simp at h

/-! ## Frame lemmas: failed commands do not change the state -/

theorem GameState.draw_false_frame (s : GameState)
    (h : (s.draw).1 = false) : (s.draw).2 = s := by
  rw [GameState.draw] at h ⊢
  cases hs : s.stock.getLast? <;> simp [hs] at h ⊢

theorem GameState.remove_king_false_frame (s : GameState) (loc : Location)
    (h : (s.remove_king loc).1 = false) : (s.remove_king loc).2 = s := by
  rw [GameState.remove_king] at h ⊢
  cases hk : loc.kind with
  | pyramid =>
    simp only [hk] at h ⊢
    cases hc : s.pyramid.card_at loc.a loc.b with
    | none => simp only [hc]
    | some card =>
      simp only [hc] at h ⊢
      by_cases hv : (card.value == 13 && s.pyramid.is_exposed loc.a loc.b) = true
      · rw [if_pos hv] at h
        exact absurd h (by simp)
      · rw [if_neg hv]
  | waste =>
    simp only [hk] at h ⊢
    cases hc : s.waste.getLast? with
    | none => simp only [hc]
    | some card =>
      simp only [hc] at h ⊢
      by_cases hv : (card.value == 13) = true
      · rw [if_pos hv] at h
        exact absurd h (by simp)
      · rw [if_neg hv]

theorem GameState.redeal_false_frame (s : GameState)
    (h : (s.redeal).1 = false) : (s.redeal).2 = s := by
  rw [GameState.redeal] at h ⊢
  by_cases h1 : s.redeals_used ≥ s.max_redeals
  · simp [h1]
  · by_cases h2 : s.waste.isEmpty <;> simp [h1, h2] at h ⊢

theorem GameState.undo_false_frame (s : GameState)
    (h : (s.undo).1 = false) : (s.undo).2 = s := by
  rw [GameState.undo] at h ⊢
  cases hh : s.history.getLast? with
  | none => simp
  | some move => cases move <;> simp [hh] at h

/-! ## The `remove_pair` removal loop -/

/-- The state after a successful removal at `loc` (the loop body of
`remove_pair` when a card is found). -/
def GameState.popLoc (s : GameState) (loc : Location) : GameState :=
  match loc.kind with
  | .pyramid => (s.remove_pyramid_card loc.a loc.b).2
  | .waste => { s with waste := s.waste.dropLast }

theorem GameState.popLoc_history (s : GameState) (loc : Location) :
    (s.popLoc loc).history = s.history := by
  rw [GameState.popLoc]
  cases loc.kind
  · rw [GameState.remove_pyramid_card, Pyramid.remove_card]
    cases h : s.pyramid.card_at loc.a loc.b <;> simp [h]
  · rfl

/-- A waste location with a card: the waste is non-empty, the index is the
top index, and the card is the waste top. -/
theorem GameState.get_card_waste (s : GameState) (loc : Location) (c : Card)
    (hk : loc.kind = .waste) (h : s.get_card loc = some c) :
    s.waste ≠ [] ∧ loc.a = s.waste.length - 1 ∧ s.waste.getLast? = some c := by
  rw [GameState.get_card, hk] at h
  by_cases h1 : (!s.waste.isEmpty && loc.a == s.waste.length - 1) = true
  · rw [if_pos h1] at h
    simp only [Bool.and_eq_true, Bool.not_eq_true', List.isEmpty_eq_false,
      beq_iff_eq] at h1
    exact ⟨h1.1, h1.2, h⟩
  · rw [if_neg h1] at h
    exact absurd h (by simp)

/-- A pyramid location with a card. -/
theorem GameState.get_card_pyramid (s : GameState) (loc : Location) (c : Card)
    (hk : loc.kind = .pyramid) (h : s.get_card loc = some c) :
    s.pyramid.card_at loc.a loc.b = some c := by
  rw [GameState.get_card, hk] at h
  exact h

/-- When the location holds a card, one loop iteration removes exactly that
card and appends it to the accumulator. -/
theorem GameState.removeAtLoc_of_get_card (s : GameState) (loc : Location)
    (acc : List (Location × Card)) (c : Card) (h : s.get_card loc = some c) :
    s.removeAtLoc loc acc = (s.popLoc loc, acc ++ [(loc, c)]) := by
  rw [GameState.removeAtLoc, GameState.popLoc]
  cases hk : loc.kind with
  | pyramid =>
    have hc := s.get_card_pyramid loc c hk h
    simp only [hk, GameState.remove_pyramid_card, Pyramid.remove_card, hc]
  | waste =>
    obtain ⟨-, -, htop⟩ := s.get_card_waste loc c hk h
    simp only [hk, htop]

/-- No card value is half of 13. -/
theorem Card.value_double_ne (c : Card) : c.value + c.value ≠ 13 := by
  rw [Card.value]
  cases c.rank <;> simp

theorem GameState.popLoc_pyramid_eq (s : GameState) (loc : Location) (c : Card)
    (hk : loc.kind = .pyramid) (hc : s.pyramid.card_at loc.a loc.b = some c) :
    s.popLoc loc =
      { s with
        pyramid := ⟨setCell s.pyramid.rows loc.a loc.b none,
                    setCell s.pyramid.removed loc.a loc.b true⟩
        removed_count := s.removed_count + 1 } := by
  rw [GameState.popLoc]
  simp only [hk, GameState.remove_pyramid_card, Pyramid.remove_card, hc]

theorem GameState.popLoc_waste_eq (s : GameState) (loc : Location)
    (hk : loc.kind = .waste) :
    s.popLoc loc = { s with waste := s.waste.dropLast } := by
  rw [GameState.popLoc]
  simp only [hk]

theorem GameState.popLoc_pyramid_frame (s : GameState) (loc : Location)
    (hk : loc.kind = .pyramid) :
    (s.popLoc loc).waste = s.waste ∧ (s.popLoc loc).stock = s.stock ∧
      (s.popLoc loc).history = s.history := by
  rw [GameState.popLoc]
  simp only [hk, GameState.remove_pyramid_card, Pyramid.remove_card]
  cases hc : s.pyramid.card_at loc.a loc.b <;> simp [hc]

/-- Distinct pyramid locations address distinct cells. -/
theorem Location.cell_ne_of_ne (f g : Location) (hne : f ≠ g)
    (hf : f.kind = .pyramid) (hg : g.kind = .pyramid) :
    f.a ≠ g.a ∨ f.b ≠ g.b := by
  by_contra hx
  push_neg at hx
  apply hne
  cases f; cases g
  simp_all

/-- After removing the first card of a valid pair, the second card is still
found at its location (the two locations cannot both be waste locations
when their values sum to 13, since both would name the same top card). -/
theorem GameState.get_card_popLoc (s : GameState) (f g : Location)
    (ca cb : Card) (hne : f ≠ g) (hf : s.get_card f = some ca)
    (hg : s.get_card g = some cb)
    (hnw : ¬(f.kind = .waste ∧ g.kind = .waste)) :
    (s.popLoc f).get_card g = some cb := by
  cases hfk : f.kind with
  | pyramid =>
    have hfc := s.get_card_pyramid f ca hfk hf
    cases hgk : g.kind with
    | pyramid =>
      have hgc := s.get_card_pyramid g cb hgk hg
      rw [s.popLoc_pyramid_eq f ca hfk hfc]
      rw [GameState.get_card] at hg ⊢
      simp only [hgk] at hg ⊢
      rw [Pyramid.card_at] at hg ⊢
      rw [getCell_setCell_ne _ _ _ _ _ _ _ (f.cell_ne_of_ne g hne hfk hgk)]
      exact hg
    | waste =>
      obtain ⟨hwaste, hstock, hhist⟩ := s.popLoc_pyramid_frame f hfk
      rw [GameState.get_card, hgk, hwaste]
      rw [GameState.get_card, hgk] at hg
      exact hg
  | waste =>
    cases hgk : g.kind with
    | pyramid =>
      have hgc := s.get_card_pyramid g cb hgk hg
      rw [s.popLoc_waste_eq f hfk, GameState.get_card, hgk]
      exact hgc
    | waste => exact absurd ⟨hfk, hgk⟩ hnw

/-- A valid pair never consists of two waste locations: both would name the
same (top) card, whose doubled value cannot be 13. -/
theorem GameState.pair_not_both_waste (s : GameState) (f g : Location)
    (ca cb : Card) (hf : s.get_card f = some ca) (hg : s.get_card g = some cb)
    (hsum : ca.value + cb.value = 13) :
    ¬(f.kind = .waste ∧ g.kind = .waste) := by
  rintro ⟨hfk, hgk⟩
  obtain ⟨-, -, hfa⟩ := s.get_card_waste f ca hfk hf
  obtain ⟨-, -, hga⟩ := s.get_card_waste g cb hgk hg
  rw [hfa] at hga
  obtain rfl : ca = cb := by injection hga
  exact ca.value_double_ne hsum

/-- Full characterisation of a `remove_pair` call that passes every
validity check: it removes exactly the two named cards (first, then
second) and records the one `remove_pair` move. -/
theorem GameState.remove_pair_eq_of_checks (s : GameState) (f g : Location)
    (ca cb : Card) (hne : f ≠ g) (hca : s.get_card f = some ca)
    (hcb : s.get_card g = some cb) (hsum : ca.value + cb.value = 13)
    (hef : s.card_exposed f = true) (heg : s.card_exposed g = true) :
    s.remove_pair f g =
      (true, { (s.popLoc f).popLoc g with
        history := s.history ++ [Move.remove_pair [(f, ca), (g, cb)]] }) := by
  have hnw := s.pair_not_both_waste f g ca cb hca hcb hsum
  have hr1 := s.removeAtLoc_of_get_card f [] ca hca
  rw [List.nil_append] at hr1
  have hcb' := s.get_card_popLoc f g ca cb hne hca hcb hnw
  have hr2 := (s.popLoc f).removeAtLoc_of_get_card g [(f, ca)] cb hcb'
  have hh : ((s.popLoc f).popLoc g).history = s.history := by
    rw [(s.popLoc f).popLoc_history g, s.popLoc_history f]
  rw [GameState.remove_pair]
  simp only [if_neg hne, hca, hcb, hr1, hr2]
  rw [if_neg (by omega), if_neg (by simp [hef, heg]), if_pos (by simp), hh]
  rfl

/-- A failed `remove_pair` leaves the state unchanged: every check happens
before any mutation, and the rollback path is unreachable once the checks
pass. -/
theorem GameState.remove_pair_false_frame (s : GameState) (f g : Location)
    (h : (s.remove_pair f g).1 = false) : (s.remove_pair f g).2 = s := by
  by_cases hne : f = g
  · rw [GameState.remove_pair, if_pos hne]
  · cases hca : s.get_card f with
    | none =>
      rw [GameState.remove_pair]
      simp only [if_neg hne, hca]
    | some ca =>
      cases hcb : s.get_card g with
      | none =>
        rw [GameState.remove_pair]
        simp only [if_neg hne, hca, hcb]
      | some cb =>
        by_cases hsum : ca.value + cb.value = 13
        · by_cases hef : s.card_exposed f = true
          · by_cases heg : s.card_exposed g = true
            · rw [s.remove_pair_eq_of_checks f g ca cb hne hca hcb hsum hef heg] at h
              exact absurd h (by simp)
            · have heg' : s.card_exposed g = false := by
                rwa [Bool.not_eq_true] at heg
              rw [GameState.remove_pair]
              simp only [if_neg hne, hca, hcb]
              rw [if_neg (by omega), if_pos (by simp [heg'])]
          · have hef' : s.card_exposed f = false := by
              rwa [Bool.not_eq_true] at hef
            rw [GameState.remove_pair]
            simp only [if_neg hne, hca, hcb]
            rw [if_neg (by omega), if_pos (by simp [hef'])]
        · rw [GameState.remove_pair]
          simp only [if_neg hne, hca, hcb]
          rw [if_pos (by omega)]

/-! ## Round trips: a successful command followed by `undo` restores the
exact prior state -/

theorem GameState.draw_roundtrip (s : GameState) (h : (s.draw).1 = true) :
    (s.draw).2.undo = (true, s) := by
  rw [GameState.draw] at h ⊢
  cases hs : s.stock.getLast? with
  | none => simp only [hs] at h; exact absurd h (by simp)
  | some c =>
    simp only [hs]
    rw [GameState.undo]
    simp only [List.getLast?_concat, List.dropLast_concat]
    rw [GameState.undo_draw]
    simp only [List.dropLast_concat]
    rw [dropLast_append_of_getLast? _ _ hs]

theorem GameState.redeal_roundtrip (s : GameState) (h : (s.redeal).1 = true) :
    (s.redeal).2.undo = (true, s) := by
  rw [GameState.redeal] at h ⊢
  by_cases h1 : s.redeals_used ≥ s.max_redeals
  · rw [if_pos h1] at h; exact absurd h (by simp)
  · rw [if_neg h1] at h ⊢
    by_cases h2 : s.waste.isEmpty = true
    · rw [if_pos h2] at h; exact absurd h (by simp)
    · rw [if_neg h2]
      rw [GameState.undo]
      simp only [List.getLast?_concat, List.dropLast_concat]
      rw [add_sub_cancel_right]

/-- Putting the removed card back undoes a pyramid `popLoc`, provided the
removed flag of that cell was clear beforehand (which the game invariant
guarantees for any cell that holds a card). -/
theorem GameState.restore_popLoc_pyramid (s : GameState) (loc : Location)
    (c : Card) (hk : loc.kind = .pyramid)
    (hc : s.pyramid.card_at loc.a loc.b = some c)
    (hdim1 : s.pyramid.removed.length = s.pyramid.rows.length)
    (hdim2 : ∀ r, (s.pyramid.removed.getD r []).length = (s.pyramid.rows.getD r []).length)
    (hflag : getCell s.pyramid.removed false loc.a loc.b = false) :
    (s.popLoc loc).restore_pyramid_card loc.a loc.b c = s := by
  obtain ⟨ha, hb⟩ := s.pyramid.card_at_bounds loc.a loc.b c hc
  rw [s.popLoc_pyramid_eq loc c hk hc, GameState.restore_pyramid_card,
    Pyramid.restore_card]
  simp only
  rw [setCell_setCell, setCell_setCell]
  rw [show some c = getCell s.pyramid.rows none loc.a loc.b from hc.symm]
  rw [setCell_getCell_self _ _ _ _ ha hb]
  rw [show false = getCell s.pyramid.removed false loc.a loc.b from hflag.symm]
  rw [setCell_getCell_self _ _ _ _ (by omega) (by rw [hdim2 loc.a]; omega)]
  rw [add_sub_cancel_right]

/-- Re-appending the popped card undoes a waste `popLoc`.  (Stated with an
explicit constructor application, the form the `undo` loop produces.) -/
theorem GameState.restore_popLoc_waste (s : GameState) (loc : Location)
    (c : Card) (hk : loc.kind = .waste) (hc : s.waste.getLast? = some c) :
    GameState.mk (s.popLoc loc).seed (s.popLoc loc).max_redeals
      (s.popLoc loc).history (s.popLoc loc).pyramid (s.popLoc loc).stock
      ((s.popLoc loc).waste ++ [c]) (s.popLoc loc).removed_count
      (s.popLoc loc).redeals_used = s := by
  rw [s.popLoc_waste_eq loc hk]
  simp only
  rw [dropLast_append_of_getLast? _ _ hc]

theorem GameState.remove_king_roundtrip (s : GameState) (loc : Location)
    (hdim1 : s.pyramid.removed.length = s.pyramid.rows.length)
    (hdim2 : ∀ r, (s.pyramid.removed.getD r []).length = (s.pyramid.rows.getD r []).length)
    (hflag : ∀ a b c, s.pyramid.card_at a b = some c →
      getCell s.pyramid.removed false a b = false)
    (h : (s.remove_king loc).1 = true) :
    (s.remove_king loc).2.undo = (true, s) := by
  rw [GameState.remove_king] at h ⊢
  cases hk : loc.kind with
  | pyramid =>
    simp only [hk] at h ⊢
    cases hc : s.pyramid.card_at loc.a loc.b with
    | none => simp only [hc] at h; exact absurd h (by simp)
    | some k =>
      simp only [hc] at h ⊢
      by_cases hv : (k.value == 13 && s.pyramid.is_exposed loc.a loc.b) = true
      · rw [if_pos hv]
        have hpop := s.popLoc_pyramid_eq loc k hk hc
        rw [GameState.popLoc] at hpop
        simp only [hk] at hpop
        simp only [hpop]
        rw [GameState.undo]
        simp only [List.getLast?_concat, List.dropLast_concat]
        have hres := s.restore_popLoc_pyramid loc k hk hc hdim1 hdim2
          (hflag loc.a loc.b k hc)
        rw [s.popLoc_pyramid_eq loc k hk hc] at hres
        rw [show ({ s with
            pyramid := ⟨setCell s.pyramid.rows loc.a loc.b none,
                       setCell s.pyramid.removed loc.a loc.b true⟩
            removed_count := s.removed_count + 1 } : GameState).restore_pyramid_card
              loc.a loc.b k = s from hres]
      · rw [if_neg hv] at h; exact absurd h (by simp)
  | waste =>
    simp only [hk] at h ⊢
    cases hc : s.waste.getLast? with
    | none => simp only [hc] at h; exact absurd h (by simp)
    | some k =>
      simp only [hc] at h ⊢
      by_cases hv : (k.value == 13) = true
      · rw [if_pos hv]
        rw [GameState.undo]
        simp only [List.getLast?_concat, List.dropLast_concat]
        rw [dropLast_append_of_getLast? _ _ hc]
      · rw [if_neg hv] at h; exact absurd h (by simp)

/-- A successful `remove_pair` implies every validity check passed. -/
theorem GameState.remove_pair_true_checks (s : GameState) (f g : Location)
    (h : (s.remove_pair f g).1 = true) :
    f ≠ g ∧ ∃ ca cb, s.get_card f = some ca ∧ s.get_card g = some cb ∧
      ca.value + cb.value = 13 ∧ s.card_exposed f = true ∧
      s.card_exposed g = true := by
  by_cases hne : f = g
  · rw [GameState.remove_pair, if_pos hne] at h
    exact absurd h (by simp)
  · refine ⟨hne, ?_⟩
    cases hca : s.get_card f with
    | none =>
      rw [GameState.remove_pair] at h
      simp only [if_neg hne, hca] at h
      exact absurd h (by simp)
    | some ca =>
      cases hcb : s.get_card g with
      | none =>
        rw [GameState.remove_pair] at h
        simp only [if_neg hne, hca, hcb] at h
        exact absurd h (by simp)
      | some cb =>
        by_cases hsum : ca.value + cb.value = 13
        · by_cases hef : s.card_exposed f = true
          · by_cases heg : s.card_exposed g = true
            · exact ⟨ca, cb, rfl, rfl, hsum, hef, heg⟩
            · have heg' : s.card_exposed g = false := by
                rwa [Bool.not_eq_true] at heg
              rw [GameState.remove_pair] at h
              simp only [if_neg hne, hca, hcb] at h
              rw [if_neg (by omega), if_pos (by simp [heg'])] at h
              exact absurd h (by simp)
          · have hef' : s.card_exposed f = false := by
              rwa [Bool.not_eq_true] at hef
            rw [GameState.remove_pair] at h
            simp only [if_neg hne, hca, hcb] at h
            rw [if_neg (by omega), if_pos (by simp [hef'])] at h
            exact absurd h (by simp)
        · rw [GameState.remove_pair] at h
          simp only [if_neg hne, hca, hcb] at h
          rw [if_pos (by omega)] at h
          exact absurd h (by simp)

theorem GameState.remove_pair_roundtrip (s : GameState) (f g : Location)
    (hdim1 : s.pyramid.removed.length = s.pyramid.rows.length)
    (hdim2 : ∀ r, (s.pyramid.removed.getD r []).length = (s.pyramid.rows.getD r []).length)
    (hflag : ∀ a b c, s.pyramid.card_at a b = some c →
      getCell s.pyramid.removed false a b = false)
    (h : (s.remove_pair f g).1 = true) :
    (s.remove_pair f g).2.undo = (true, s) := by
  obtain ⟨hne, ca, cb, hca, hcb, hsum, hef, heg⟩ := s.remove_pair_true_checks f g h
  have hnw := s.pair_not_both_waste f g ca cb hca hcb hsum
  have hXh : ((s.popLoc f).popLoc g).history = s.history := by
    rw [(s.popLoc f).popLoc_history g, s.popLoc_history f]
  have hs0 : GameState.mk ((s.popLoc f).popLoc g).seed
      ((s.popLoc f).popLoc g).max_redeals s.history
      ((s.popLoc f).popLoc g).pyramid ((s.popLoc f).popLoc g).stock
      ((s.popLoc f).popLoc g).waste ((s.popLoc f).popLoc g).removed_count
      ((s.popLoc f).popLoc g).redeals_used = (s.popLoc f).popLoc g := by
    rw [← hXh]
  rw [s.remove_pair_eq_of_checks f g ca cb hne hca hcb hsum hef heg]
  rw [GameState.undo]
  simp only [List.getLast?_concat, List.dropLast_concat]
  rw [GameState.restoreRemoved]
  simp only [List.reverse_cons, List.reverse_nil, List.nil_append,
    List.cons_append, List.foldl_cons, List.foldl_nil]
  cases hfk : f.kind with
  | pyramid =>
    have hfc := s.get_card_pyramid f ca hfk hca
    have hzeq := s.popLoc_pyramid_eq f ca hfk hfc
    cases hgk : g.kind with
    | pyramid =>
      have hgc := s.get_card_pyramid g cb hgk hcb
      have hcell := Location.cell_ne_of_ne f g hne hfk hgk
      have hZdim1 : (s.popLoc f).pyramid.removed.length
          = (s.popLoc f).pyramid.rows.length := by
        rw [hzeq]
        simp only
        rw [length_setCell, length_setCell, hdim1]
      have hZdim2 : ∀ r, ((s.popLoc f).pyramid.removed.getD r []).length
          = ((s.popLoc f).pyramid.rows.getD r []).length := by
        intro r
        rw [hzeq]
        simp only
        rw [getD_setCell_row_len, getD_setCell_row_len]
        exact hdim2 r
      have hZc : (s.popLoc f).pyramid.card_at g.a g.b = some cb :=
        (s.popLoc f).get_card_pyramid g cb hgk
          (s.get_card_popLoc f g ca cb hne hca hcb hnw)
      have hZflag : getCell (s.popLoc f).pyramid.removed false g.a g.b = false := by
        rw [hzeq]
        simp only
        rw [getCell_setCell_ne _ _ _ _ _ _ _ hcell]
        exact hflag g.a g.b cb hgc
      simp only [hfk, hgk]
      rw [hs0]
      rw [(s.popLoc f).restore_popLoc_pyramid g cb hgk hZc hZdim1 hZdim2 hZflag]
      rw [s.restore_popLoc_pyramid f ca hfk hfc hdim1 hdim2 (hflag f.a f.b ca hfc)]
    | waste =>
      obtain ⟨hZw, -, -⟩ := s.popLoc_pyramid_frame f hfk
      obtain ⟨-, -, hgtop⟩ := s.get_card_waste g cb hgk hcb
      have hZtop : (s.popLoc f).waste.getLast? = some cb := by rw [hZw]; exact hgtop
      simp only [hfk, hgk]
      rw [← hXh]
      rw [(s.popLoc f).restore_popLoc_waste g cb hgk hZtop]
      rw [s.restore_popLoc_pyramid f ca hfk hfc hdim1 hdim2 (hflag f.a f.b ca hfc)]
  | waste =>
    cases hgk : g.kind with
    | pyramid =>
      have hgc := s.get_card_pyramid g cb hgk hcb
      have hzw := s.popLoc_waste_eq f hfk
      have hZdim1 : (s.popLoc f).pyramid.removed.length
          = (s.popLoc f).pyramid.rows.length := by rw [hzw]; exact hdim1
      have hZdim2 : ∀ r, ((s.popLoc f).pyramid.removed.getD r []).length
          = ((s.popLoc f).pyramid.rows.getD r []).length := by
        rw [hzw]; exact hdim2
      have hZc : (s.popLoc f).pyramid.card_at g.a g.b = some cb := by
        rw [hzw]; exact hgc
      have hZflag : getCell (s.popLoc f).pyramid.removed false g.a g.b = false := by
        rw [hzw]; exact hflag g.a g.b cb hgc
      obtain ⟨-, -, hftop⟩ := s.get_card_waste f ca hfk hca
      simp only [hfk, hgk]
      rw [hs0]
      rw [(s.popLoc f).restore_popLoc_pyramid g cb hgk hZc hZdim1 hZdim2 hZflag]
      rw [s.restore_popLoc_waste f ca hfk hftop]
    | waste => exact absurd ⟨hfk, hgk⟩ hnw

/-! ## Counting measures for the conservation invariant -/

/-- Number of empty (removed) pyramid cells. -/
def countNoneCells (g : List (List (Option Card))) : Nat :=
  (g.map (fun row => row.countP (fun c => c.isNone))).sum

/-- Number of occupied pyramid cells. -/
def countSomeCells (g : List (List (Option Card))) : Nat :=
  (g.map (fun row => row.countP (fun c => c.isSome))).sum

/-- Number of cards a move removed from the waste (such cards are tracked
nowhere in the state afterwards). -/
def wasteRemovedOfMove : Move → Nat
  | .remove_king_waste _ => 1
  | .remove_pair cards => cards.countP (fun lc => lc.1.kind == LocKind.waste)
  | _ => 0

/-- Number of cards the recorded history removed from the waste. -/
def wasteRemovedCount (h : List Move) : Nat := (h.map wasteRemovedOfMove).sum

theorem wasteRemovedCount_append (h : List Move) (m : Move) :
    wasteRemovedCount (h ++ [m]) = wasteRemovedCount h + wasteRemovedOfMove m := by
  rw [wasteRemovedCount, wasteRemovedCount, List.map_append, List.sum_append]
  simp

/-- Generic cell-count update under `setCell`. -/
theorem countCellsP_set (p : Option Card → Bool) (g : List (List (Option Card)))
    (a b : Nat) (v : Option Card) (ha : a < g.length)
    (hb : b < (g.getD a []).length) :
    ((setCell g a b v).map (fun row => row.countP p)).sum
        + (if p (getCell g none a b) then 1 else 0)
      = (g.map (fun row => row.countP p)).sum + (if p v then 1 else 0) := by
  rw [setCell, map_set]
  have hrow := countP_set (g.getD a []) b v none p hb
  have hsum := sum_set (g.map (fun row => row.countP p)) a
    (((g.getD a []).set b v).countP p) (by simpa using ha)
  have hg : (g.map (fun row => row.countP p)).getD a 0 = (g.getD a []).countP p := by
    rw [List.getD_eq_getElem _ _ (by simpa using ha), List.getElem_map,
      List.getD_eq_getElem _ _ ha]
  rw [hg] at hsum
  rw [getCell]
  omega

theorem countNone_set_none (g : List (List (Option Card))) (a b : Nat) (c : Card)
    (ha : a < g.length) (hb : b < (g.getD a []).length)
    (hc : getCell g none a b = some c) :
    countNoneCells (setCell g a b none) = countNoneCells g + 1 := by
  have hstep := countCellsP_set (fun x => x.isNone) g a b none ha hb
  rw [hc] at hstep
  simp at hstep
  rw [countNoneCells, countNoneCells]
  omega

theorem countSome_set_none (g : List (List (Option Card))) (a b : Nat) (c : Card)
    (ha : a < g.length) (hb : b < (g.getD a []).length)
    (hc : getCell g none a b = some c) :
    countSomeCells g = countSomeCells (setCell g a b none) + 1 := by
  have hstep := countCellsP_set (fun x => x.isSome) g a b none ha hb
  rw [hc] at hstep
  simp at hstep
  rw [countSomeCells, countSomeCells]
  omega

/-! ## Initial layout facts -/

theorem dealMany_lengths (n : Nat) (cs : List Card) (h : n ≤ cs.length) :
    (dealMany n cs).1.length = n ∧ (dealMany n cs).2.length = cs.length - n := by
  induction n generalizing cs with
  | zero => simp [dealMany]
  | succ m ih =>
    have hne : cs ≠ [] := by
      intro hnil
      rw [hnil] at h
      simp at h
    obtain ⟨c, hc⟩ := Option.isSome_iff_exists.mp (List.getLast?_isSome.mpr hne)
    have hdl := length_dropLast_of_getLast? cs c hc
    have ihm := ih cs.dropLast (by omega)
    rw [dealMany, hc]
    refine ⟨?_, ?_⟩
    · simp only [List.length_cons]
      omega
    · simp only
      omega

theorem takeRow_length (n : Nat) (cs : List Card) : (takeRow n cs).1.length = n := by
  induction n generalizing cs with
  | zero => rfl
  | succ m ih =>
    cases cs with
    | nil => simp [takeRow, ih]
    | cons c cs' => simp [takeRow, ih]

theorem takeRow_of_le (n : Nat) (cs : List Card) (h : n ≤ cs.length) :
    takeRow n cs = ((cs.take n).map some, cs.drop n) := by
  induction n generalizing cs with
  | zero => simp [takeRow]
  | succ m ih =>
    cases cs with
    | nil => simp at h
    | cons c cs' =>
      rw [takeRow, ih cs' (by simpa using h)]
      simp

theorem buildRows_length (ns : List Nat) (cs : List Card) :
    (buildRows ns cs).length = ns.length := by
  induction ns generalizing cs with
  | nil => rfl
  | cons n ns' ih => simp [buildRows, ih]

theorem buildRows_row_length (ns : List Nat) (cs : List Card) (r : Nat) :
    ((buildRows ns cs).getD r []).length = (ns.getD r 0 : Nat) := by
  induction ns generalizing cs r with
  | nil => simp [buildRows]
  | cons n ns' ih =>
    cases r with
    | zero => simp [buildRows, takeRow_length]
    | succ r' => simp only [buildRows, List.getD_cons_succ]; exact ih _ r'

theorem buildRows_counts (ns : List Nat) (cs : List Card) (h : ns.sum ≤ cs.length) :
    countNoneCells (buildRows ns cs) = 0 ∧
      countSomeCells (buildRows ns cs) = ns.sum := by
  induction ns generalizing cs with
  | nil => simp [buildRows, countNoneCells, countSomeCells]
  | cons n ns' ih =>
    simp only [List.sum_cons] at h
    rw [buildRows, takeRow_of_le n cs (by omega)]
    simp only
    have htk : (cs.take n).length = n := by
      rw [List.length_take]
      omega
    have ihr := ih (cs.drop n) (by rw [List.length_drop]; omega)
    simp only [countNoneCells, countSomeCells] at ihr ⊢
    simp only [List.map_cons, List.sum_cons]
    have hnone : ((cs.take n).map some).countP (fun c => c.isNone) = 0 := by
      rw [List.countP_map]
      simp [Function.comp]
    have hsome : ((cs.take n).map some).countP (fun c => c.isSome) = (cs.take n).length := by
      rw [List.countP_map]
      have hcmp : ((fun (c : Option Card) => c.isSome) ∘ some) = fun (_ : Card) => true := rfl
      rw [hcmp, List.countP_true]
    rw [hnone, hsome, htk]
    omega

theorem buildRows_cell_some (ns : List Nat) (cs : List Card)
    (h : ns.sum ≤ cs.length) (a b : Nat) (hb : b < ((buildRows ns cs).getD a []).length) :
    (getCell (buildRows ns cs) none a b).isSome = true := by
  induction ns generalizing cs a with
  | nil => simp [buildRows] at hb
  | cons n ns' ih =>
    simp only [List.sum_cons] at h
    cases a with
    | zero =>
      rw [buildRows, takeRow_of_le n cs (by omega)] at hb ⊢
      simp only [List.getD_cons_zero] at hb ⊢
      rw [getCell, List.getD_cons_zero] at *
      have hble : b < (cs.take n).length := by simpa using hb
      rw [List.getD_eq_getElem _ _ (by simpa using hb), List.getElem_map]
      rfl
    | succ a' =>
      rw [buildRows] at hb ⊢
      rw [getCell, List.getD_cons_succ]
      simp only [List.getD_cons_succ] at hb
      rw [takeRow_of_le n cs (by omega)] at hb ⊢
      exact ih (cs.drop n) (by rw [List.length_drop]; omega) a' (by simpa using hb)

/-! ## The game invariant -/

/-- Invariant maintained by construction and every forward command:
grid shapes, removed-flag consistency, the `removed_count` bookkeeping,
card conservation (with an explicit term for cards that left the game via
the waste), and soundness of the latest `draw` record. -/
structure GameInv (s : GameState) : Prop where
  rowsLen : s.pyramid.rows.length = 7
  dimsLen : s.pyramid.removed.length = s.pyramid.rows.length
  dims : ∀ r, (s.pyramid.removed.getD r []).length = (s.pyramid.rows.getD r []).length
  flags : ∀ a b c, s.pyramid.card_at a b = some c →
    getCell s.pyramid.removed false a b = false
  count : s.removed_count = (countNoneCells s.pyramid.rows : Int)
  total : (countSomeCells s.pyramid.rows : Int) + s.stock.length + s.waste.length
      + s.removed_count + (wasteRemovedCount s.history : Int) = 52
  lastDraw : ∀ c, s.history.getLast? = some (Move.draw c) →
    s.waste.getLast? = some c

theorem getD_map_const_false {β : Type} (l : List β) (b : Nat) :
    (l.map (fun _ => false)).getD b false = false := by
  by_cases hb : b < l.length
  · rw [List.getD_eq_getElem _ _ (by rw [List.length_map]; exact hb),
      List.getElem_map]
  · rw [List.getD_eq_getElem?_getD,
      List.getElem?_eq_none (by rw [List.length_map]; omega)]
    rfl

theorem getCell_map_const_false (g : List (List (Option Card))) (a b : Nat) :
    getCell (g.map (fun row => row.map (fun _ => false))) false a b = false := by
  rw [getCell]
  by_cases ha : a < g.length
  · have h1 : (g.map (fun row => row.map (fun _ => false))).getD a []
        = (g.getD a []).map (fun _ => false) := by
      rw [List.getD_eq_getElem _ _ (by rw [List.length_map]; exact ha),
        List.getElem_map, List.getD_eq_getElem _ _ ha]
    rw [h1]
    exact getD_map_const_false _ b
  · have h1 : (g.map (fun row => row.map (fun _ => false))).getD a [] = [] := by
      rw [List.getD_eq_getElem?_getD,
        List.getElem?_eq_none (by rw [List.length_map]; omega)]
      rfl
    rw [h1]
    rfl

theorem getD_map_row_length (g : List (List (Option Card))) (r : Nat) :
    ((g.map (fun row => row.map (fun (_ : Option Card) => false))).getD r []).length
      = (g.getD r []).length := by
  by_cases hr : r < g.length
  · rw [List.getD_eq_getElem _ _ (by rw [List.length_map]; exact hr),
      List.getElem_map, List.length_map, List.getD_eq_getElem _ _ hr]
  · rw [List.getD_eq_getElem?_getD,
      List.getElem?_eq_none (by rw [List.length_map]; omega),
      List.getD_eq_getElem?_getD, List.getElem?_eq_none (by omega)]
    rfl

theorem freshDeckCards_length : freshDeckCards.length = 52 := by decide

/-- The invariant holds after `reset` from any 52-card deck. -/
theorem inv_resetFrom (s : GameState) (deck : List Card)
    (h52 : deck.length = 52) : GameInv (s.resetFrom deck) := by
  obtain ⟨hd1, hd2⟩ := dealMany_lengths 28 deck (by omega)
  have hsum : ([1, 2, 3, 4, 5, 6, 7] : List Nat).sum ≤ (dealMany 28 deck).1.length := by
    rw [hd1]; decide
  obtain ⟨hnone, hsome⟩ := buildRows_counts [1, 2, 3, 4, 5, 6, 7] (dealMany 28 deck).1 hsum
  rw [GameState.resetFrom]
  refine ⟨?_, ?_, ?_, ?_, ?_, ?_, ?_⟩
  · exact buildRows_length _ _
  · simp only [Pyramid.ofCards, List.length_map]
  · intro r
    simp only [Pyramid.ofCards]
    exact getD_map_row_length _ r
  · intro a b c _
    simp only [Pyramid.ofCards]
    exact getCell_map_const_false _ a b
  · simp only [Pyramid.ofCards, hnone]
    rfl
  · simp only [Pyramid.ofCards, hsome, hd2, h52, List.length_nil,
      wasteRemovedCount, List.map_nil, List.sum_nil]
    norm_num
  · intro c hc
    simp at hc

/-- `draw` preserves the invariant. -/
theorem inv_draw (s : GameState) (hs : GameInv s) : GameInv (s.draw).2 := by
  rw [GameState.draw]
  cases hst : s.stock.getLast? with
  | none => exact hs
  | some c =>
    simp only
    have hlen := length_dropLast_of_getLast? s.stock c hst
    refine ⟨hs.rowsLen, hs.dimsLen, hs.dims, hs.flags, hs.count, ?_, ?_⟩
    · have := hs.total
      rw [wasteRemovedCount_append]
      simp only [wasteRemovedOfMove, List.length_append, List.length_singleton]
      push_cast
      push_cast at this
      omega
    · intro c' hc'
      rw [List.getLast?_concat] at hc'
      obtain rfl : c = c' := Move.draw.inj (Option.some.inj hc')
      rw [List.getLast?_concat]

/-- `redeal` preserves the invariant. -/
theorem inv_redeal (s : GameState) (hs : GameInv s) : GameInv (s.redeal).2 := by
  rw [GameState.redeal]
  by_cases h1 : s.redeals_used ≥ s.max_redeals
  · rw [if_pos h1]; exact hs
  · rw [if_neg h1]
    by_cases h2 : s.waste.isEmpty = true
    · rw [if_pos h2]; exact hs
    · rw [if_neg h2]
      refine ⟨hs.rowsLen, hs.dimsLen, hs.dims, hs.flags, hs.count, ?_, ?_⟩
      · have := hs.total
        rw [wasteRemovedCount_append]
        simp only [wasteRemovedOfMove, List.length_append, List.length_reverse,
          List.length_nil]
        push_cast
        push_cast at this
        omega
      · intro c hc
        rw [List.getLast?_concat] at hc
        exact Move.noConfusion (Option.some.inj hc)

/-- A card found after clearing cell `(a, b)` was already there before, at
a different cell. -/
theorem getCell_setCell_none_of_some (rows : List (List (Option Card)))
    (a b a' b' : Nat) (c : Card)
    (h : getCell (setCell rows a b none) none a' b' = some c) :
    (a ≠ a' ∨ b ≠ b') ∧ getCell rows none a' b' = some c := by
  by_cases hne : a ≠ a' ∨ b ≠ b'
  · exact ⟨hne, by rwa [getCell_setCell_ne _ _ _ _ _ _ _ hne] at h⟩
  · push_neg at hne
    obtain ⟨rfl, rfl⟩ := hne
    exfalso
    by_cases ha : a < rows.length
    · by_cases hb : b < (rows.getD a []).length
      · rw [getCell_setCell_self _ _ _ _ _ ha hb] at h
        exact Option.noConfusion h
      · rw [getCell, setCell, getD_set_self _ _ _ _ ha] at h
        rw [List.getD_eq_getElem?_getD,
          List.getElem?_eq_none (by rw [List.length_set]; omega)] at h
        exact Option.noConfusion h
    · have h0 : (setCell rows a b none).getD a [] = [] := by
        rw [setCell, List.getD_eq_getElem?_getD,
          List.getElem?_eq_none (by rw [List.length_set]; omega)]
        rfl
      rw [getCell, h0] at h
      simp at h

/-- The pyramid-local part of the invariant. -/
structure PyrInv (s : GameState) : Prop where
  rowsLen : s.pyramid.rows.length = 7
  dimsLen : s.pyramid.removed.length = s.pyramid.rows.length
  dims : ∀ r, (s.pyramid.removed.getD r []).length = (s.pyramid.rows.getD r []).length
  flags : ∀ a b c, s.pyramid.card_at a b = some c →
    getCell s.pyramid.removed false a b = false
  count : s.removed_count = (countNoneCells s.pyramid.rows : Int)

theorem GameInv.pyr {s : GameState} (hs : GameInv s) : PyrInv s :=
  ⟨hs.rowsLen, hs.dimsLen, hs.dims, hs.flags, hs.count⟩

/-- `remove_king` preserves the invariant. -/
theorem inv_remove_king (s : GameState) (loc : Location) (hs : GameInv s) :
    GameInv (s.remove_king loc).2 := by
  rw [GameState.remove_king]
  cases hk : loc.kind with
  | pyramid =>
    simp only [hk]
    cases hc : s.pyramid.card_at loc.a loc.b with
    | none => exact hs
    | some card =>
      simp only
      by_cases hv : (card.value == 13 && s.pyramid.is_exposed loc.a loc.b) = true
      · rw [if_pos hv]
        simp only [GameState.remove_pyramid_card, Pyramid.remove_card, hc]
        obtain ⟨ha, hb⟩ := s.pyramid.card_at_bounds loc.a loc.b card hc
        have hcg : getCell s.pyramid.rows none loc.a loc.b = some card := hc
        refine ⟨?_, ?_, ?_, ?_, ?_, ?_, ?_⟩
        · rw [length_setCell]; exact hs.rowsLen
        · rw [length_setCell, length_setCell]; exact hs.dimsLen
        · intro r
          rw [getD_setCell_row_len, getD_setCell_row_len]
          exact hs.dims r
        · intro a' b' c' hc'
          rw [Pyramid.card_at] at hc'
          obtain ⟨hne, hold⟩ := getCell_setCell_none_of_some _ _ _ _ _ _ hc'
          rw [getCell_setCell_ne _ _ _ _ _ _ _ hne]
          exact hs.flags a' b' c' hold
        · rw [countNone_set_none _ _ _ _ ha hb hcg]
          have hcount := hs.count
          push_cast
          omega
        · have h1 := countSome_set_none _ _ _ card ha hb hcg
          have h2 := hs.total
          rw [wasteRemovedCount_append]
          simp only [wasteRemovedOfMove]
          push_cast at h2 ⊢
          omega
        · intro c' hc'
          rw [List.getLast?_concat] at hc'
          exact Move.noConfusion (Option.some.inj hc')
      · rw [if_neg hv]; exact hs
  | waste =>
    simp only [hk]
    cases hc : s.waste.getLast? with
    | none => exact hs
    | some card =>
      simp only
      by_cases hv : (card.value == 13) = true
      · rw [if_pos hv]
        have hlen := length_dropLast_of_getLast? s.waste card hc
        refine ⟨hs.rowsLen, hs.dimsLen, hs.dims, hs.flags, hs.count, ?_, ?_⟩
        · have h2 := hs.total
          rw [wasteRemovedCount_append]
          simp only [wasteRemovedOfMove]
          push_cast at h2 ⊢
          omega
        · intro c' hc'
          rw [List.getLast?_concat] at hc'
          exact Move.noConfusion (Option.some.inj hc')
      · rw [if_neg hv]; exact hs

/-- `popLoc` preserves the pyramid-local invariant, keeps the history, and
changes the playable-card measure by one exactly when the location is a
waste location. -/
theorem GameState.popLoc_pyrInv (s : GameState) (loc : Location) (c : Card)
    (hc : s.get_card loc = some c) (hp : PyrInv s) :
    PyrInv (s.popLoc loc) ∧
      (countSomeCells (s.popLoc loc).pyramid.rows : Int)
          + (s.popLoc loc).stock.length + (s.popLoc loc).waste.length
          + (s.popLoc loc).removed_count
          + (if loc.kind = LocKind.waste then (1 : Int) else 0)
        = (countSomeCells s.pyramid.rows : Int) + s.stock.length
          + s.waste.length + s.removed_count ∧
      (s.popLoc loc).history = s.history := by
  cases hk : loc.kind with
  | pyramid =>
    have hcard := s.get_card_pyramid loc c hk hc
    obtain ⟨ha, hb⟩ := s.pyramid.card_at_bounds loc.a loc.b c hcard
    have hcg : getCell s.pyramid.rows none loc.a loc.b = some c := hcard
    rw [s.popLoc_pyramid_eq loc c hk hcard]
    simp only
    refine ⟨⟨?_, ?_, ?_, ?_, ?_⟩, ?_, trivial⟩
    · rw [length_setCell]; exact hp.rowsLen
    · rw [length_setCell, length_setCell]; exact hp.dimsLen
    · intro r
      rw [getD_setCell_row_len, getD_setCell_row_len]
      exact hp.dims r
    · intro a' b' c' hc'
      rw [Pyramid.card_at] at hc'
      obtain ⟨hne, hold⟩ := getCell_setCell_none_of_some _ _ _ _ _ _ hc'
      rw [getCell_setCell_ne _ _ _ _ _ _ _ hne]
      exact hp.flags a' b' c' hold
    · rw [countNone_set_none _ _ _ _ ha hb hcg]
      have hcount := hp.count
      push_cast
      omega
    · have h1 := countSome_set_none _ _ _ c ha hb hcg
      have hite : (if LocKind.pyramid = LocKind.waste then (1 : Int) else 0) = 0 := by
        rw [if_neg (by simp)]
      rw [hite]
      omega
  | waste =>
    obtain ⟨-, -, htop⟩ := s.get_card_waste loc c hk hc
    have hlen := length_dropLast_of_getLast? s.waste c htop
    rw [s.popLoc_waste_eq loc hk]
    simp only
    refine ⟨⟨hp.rowsLen, hp.dimsLen, hp.dims, hp.flags, hp.count⟩, ?_, trivial⟩
    have hite : (if True then (1 : Int) else 0) = 1 := if_pos trivial
    rw [hite]
    omega

/-- `remove_pair` preserves the invariant. -/
theorem inv_remove_pair (s : GameState) (f g : Location) (hs : GameInv s) :
    GameInv (s.remove_pair f g).2 := by
  cases hb : (s.remove_pair f g).1 with
  | false => rw [s.remove_pair_false_frame f g hb]; exact hs
  | true =>
    obtain ⟨hne, ca, cb, hca, hcb, hsum, hef, heg⟩ := s.remove_pair_true_checks f g hb
    have hnw := s.pair_not_both_waste f g ca cb hca hcb hsum
    obtain ⟨hpi1, hsum1, hh1⟩ := s.popLoc_pyrInv f ca hca hs.pyr
    have hcb' := s.get_card_popLoc f g ca cb hne hca hcb hnw
    obtain ⟨hpi2, hsum2, hh2⟩ := (s.popLoc f).popLoc_pyrInv g cb hcb' hpi1
    have hm : (wasteRemovedOfMove (Move.remove_pair [(f, ca), (g, cb)]) : Int)
        = (if f.kind = LocKind.waste then (1 : Int) else 0)
          + (if g.kind = LocKind.waste then (1 : Int) else 0) := by
      cases hfk : f.kind <;> cases hgk : g.kind <;>
        simp [wasteRemovedOfMove, hfk, hgk]
    rw [s.remove_pair_eq_of_checks f g ca cb hne hca hcb hsum hef heg]
    simp only
    refine ⟨hpi2.rowsLen, hpi2.dimsLen, hpi2.dims, hpi2.flags, hpi2.count, ?_, ?_⟩
    · have h2 := hs.total
      rw [wasteRemovedCount_append]
      push_cast at h2 ⊢
      rw [hm]
      omega
    · intro c' hc'
      rw [List.getLast?_concat] at hc'
      exact Move.noConfusion (Option.some.inj hc')

/-! ## Reachable states

`random.shuffle` permutes the fresh 52-card deck in place, so every deck a
game is dealt from is a permutation of `freshDeckCards`. `Good` is the set
of states reachable by construction, reset and the forward commands;
`Reachable` additionally closes under `undo`. -/

inductive Good : GameState → Prop
  | init (deck : List Card) (hdeck : deck.Perm freshDeckCards)
      (seed : Option Int) (m : Int) : Good (GameState.newGameFrom deck seed m)
  | reset (s : GameState) (deck : List Card) (hdeck : deck.Perm freshDeckCards) :
      Good s → Good (s.resetFrom deck)
  | draw (s : GameState) : Good s → Good (s.draw).2
  | remove_king (s : GameState) (loc : Location) :
      Good s → Good (s.remove_king loc).2
  | remove_pair (s : GameState) (f g : Location) :
      Good s → Good (s.remove_pair f g).2
  | redeal (s : GameState) : Good s → Good (s.redeal).2

theorem good_inv {s : GameState} (h : Good s) : GameInv s := by
  induction h with
  | init deck hdeck seed m =>
    exact inv_resetFrom _ deck (by rw [hdeck.length_eq, freshDeckCards_length])
  | reset s deck hdeck _ _ =>
    exact inv_resetFrom s deck (by rw [hdeck.length_eq, freshDeckCards_length])
  | draw s _ ih => exact inv_draw s ih
  | remove_king s loc _ ih => exact inv_remove_king s loc ih
  | remove_pair s f g _ ih => exact inv_remove_pair s f g ih
  | redeal s _ ih => exact inv_redeal s ih

/-- `undo` of a forward-reachable state yields a forward-reachable state:
either the history is empty (no change), or `undo` exactly inverts the
most recent command. -/
theorem undo_good {s : GameState} (h : Good s) : Good (s.undo).2 := by
  induction h with
  | init deck hdeck seed m =>
    have hf : ((GameState.newGameFrom deck seed m).undo).1 = false := by
      rw [GameState.undo]
      rfl
    rw [GameState.undo_false_frame _ hf]
    exact Good.init deck hdeck seed m
  | reset s deck hdeck hgood _ =>
    have hf : ((s.resetFrom deck).undo).1 = false := by
      rw [GameState.undo]
      rfl
    rw [GameState.undo_false_frame _ hf]
    exact Good.reset s deck hdeck hgood
  | draw s hgood ih =>
    cases hb : (s.draw).1 with
    | false => rw [GameState.draw_false_frame s hb]; exact ih
    | true => rw [s.draw_roundtrip hb]; exact hgood
  | remove_king s loc hgood ih =>
    cases hb : (s.remove_king loc).1 with
    | false => rw [GameState.remove_king_false_frame s loc hb]; exact ih
    | true =>
      have hi := good_inv hgood
      rw [s.remove_king_roundtrip loc hi.dimsLen hi.dims hi.flags hb]
      exact hgood
  | remove_pair s f g hgood ih =>
    cases hb : (s.remove_pair f g).1 with
    | false => rw [GameState.remove_pair_false_frame s f g hb]; exact ih
    | true =>
      have hi := good_inv hgood
      rw [s.remove_pair_roundtrip f g hi.dimsLen hi.dims hi.flags hb]
      exact hgood
  | redeal s hgood ih =>
    cases hb : (s.redeal).1 with
    | false => rw [GameState.redeal_false_frame s hb]; exact ih
    | true => rw [s.redeal_roundtrip hb]; exact hgood

/-- States reachable from construction through the public operations,
including `undo`. -/
inductive Reachable : GameState → Prop
  | init (deck : List Card) (hdeck : deck.Perm freshDeckCards)
      (seed : Option Int) (m : Int) : Reachable (GameState.newGameFrom deck seed m)
  | reset (s : GameState) (deck : List Card) (hdeck : deck.Perm freshDeckCards) :
      Reachable s → Reachable (s.resetFrom deck)
  | draw (s : GameState) : Reachable s → Reachable (s.draw).2
  | remove_king (s : GameState) (loc : Location) :
      Reachable s → Reachable (s.remove_king loc).2
  | remove_pair (s : GameState) (f g : Location) :
      Reachable s → Reachable (s.remove_pair f g).2
  | redeal (s : GameState) : Reachable s → Reachable (s.redeal).2
  | undo (s : GameState) : Reachable s → Reachable (s.undo).2

theorem Reachable.good {s : GameState} (h : Reachable s) : Good s := by
  induction h with
  | init deck hdeck seed m => exact Good.init deck hdeck seed m
  | reset s deck hdeck _ ih => exact Good.reset s deck hdeck ih
  | draw s _ ih => exact Good.draw s ih
  | remove_king s loc _ ih => exact Good.remove_king s loc ih
  | remove_pair s f g _ ih => exact Good.remove_pair s f g ih
  | redeal s _ ih => exact Good.redeal s ih
  | undo s _ ih => exact undo_good ih

theorem Reachable.inv {s : GameState} (h : Reachable s) : GameInv s :=
  good_inv h.good

/-! ## Characterising `legal_moves_remaining` -/

theorem Pyramid.mem_all_cards (p : Pyramid) (r c : Nat) (oc : Option Card) :
    (r, c, oc) ∈ p.all_cards ↔
      r < p.rows.length ∧ c < (p.rows.getD r []).length ∧
        oc = (p.rows.getD r []).getD c none := by
  rw [Pyramid.all_cards, List.mem_flatten]
  constructor
  · rintro ⟨l, hl, hx⟩
    rw [List.mem_map] at hl
    obtain ⟨⟨ri, row⟩, hrow, rfl⟩ := hl
    rw [List.mem_map] at hx
    obtain ⟨⟨ci, cardi⟩, hcell, heq⟩ := hx
    obtain ⟨rfl, rfl, rfl⟩ : r = ri ∧ c = ci ∧ oc = cardi := by
      simp only [Prod.mk.injEq] at heq
      exact ⟨heq.1.symm, heq.2.1.symm, heq.2.2.symm⟩
    rw [List.mk_mem_enum_iff_getElem?] at hrow hcell
    have hcell2 : row[c]? = some oc := hcell
    have hrlt : r < p.rows.length := by
      by_contra hge
      rw [List.getElem?_eq_none (by omega)] at hrow
      exact Option.noConfusion hrow
    have hrowD : p.rows.getD r [] = row := by
      rw [List.getD_eq_getElem?_getD, hrow]
      rfl
    have hclt : c < row.length := by
      by_contra hge
      rw [List.getElem?_eq_none (by omega)] at hcell2
      exact Option.noConfusion hcell2
    refine ⟨hrlt, by rw [hrowD]; exact hclt, ?_⟩
    rw [hrowD, List.getD_eq_getElem?_getD, hcell2]
    rfl
  · rintro ⟨hr, hc, hoc⟩
    refine ⟨(p.rows.getD r []).enum.map (fun cc => (r, cc.1, cc.2)), ?_, ?_⟩
    · rw [List.mem_map]
      refine ⟨(r, p.rows.getD r []), ?_, rfl⟩
      rw [List.mk_mem_enum_iff_getElem?, List.getElem?_eq_getElem hr,
        List.getD_eq_getElem _ _ hr]
    · rw [List.mem_map]
      refine ⟨(c, oc), ?_, rfl⟩
      rw [List.mk_mem_enum_iff_getElem?, List.getElem?_eq_getElem hc, hoc,
        List.getD_eq_getElem _ _ hc]

theorem mem_exposedPyramidValues (s : GameState) (v : Nat) :
    v ∈ s.exposedPyramidValues ↔
      ∃ r c card, s.pyramid.card_at r c = some card ∧
        s.pyramid.is_exposed r c = true ∧ card.value = v := by
  rw [GameState.exposedPyramidValues, List.mem_filterMap]
  constructor
  · rintro ⟨⟨r, c, oc⟩, hmem, hf⟩
    rw [Pyramid.mem_all_cards] at hmem
    obtain ⟨hr, hc, hoc⟩ := hmem
    cases oc with
    | none => simp at hf
    | some card =>
      simp only at hf
      by_cases hexp : s.pyramid.is_exposed r c = true
      · rw [if_pos hexp] at hf
        refine ⟨r, c, card, ?_, hexp, Option.some.inj hf⟩
        rw [Pyramid.card_at, getCell, ← hoc]
      · rw [if_neg hexp] at hf
        exact absurd hf (by simp)
  · rintro ⟨r, c, card, hcard, hexp, hval⟩
    refine ⟨(r, c, some card), ?_, ?_⟩
    · obtain ⟨hr, hc⟩ := s.pyramid.card_at_bounds r c card hcard
      rw [Pyramid.mem_all_cards]
      exact ⟨hr, hc, hcard.symm⟩
    · simp only [hexp, if_pos, hval]

theorem hasPairSum13_iff (vs : List Nat) :
    hasPairSum13 vs = true ↔
      ∃ i j, i < j ∧ j < vs.length ∧ vs.getD i 0 + vs.getD j 0 = 13 := by
  induction vs with
  | nil => simp [hasPairSum13]
  | cons v rest ih =>
    rw [hasPairSum13, Bool.or_eq_true, List.any_eq_true, ih]
    constructor
    · rintro (⟨w, hw, hsum⟩ | ⟨i, j, hij, hj, hsum⟩)
      · obtain ⟨k, hk, rfl⟩ := List.mem_iff_getElem.mp hw
        refine ⟨0, k + 1, by omega, by simp only [List.length_cons]; omega, ?_⟩
        rw [List.getD_cons_zero, List.getD_cons_succ,
          List.getD_eq_getElem _ _ hk]
        rw [beq_iff_eq] at hsum
        exact hsum
      · refine ⟨i + 1, j + 1, by omega, by simp only [List.length_cons]; omega, ?_⟩
        rw [List.getD_cons_succ, List.getD_cons_succ]
        exact hsum
    · rintro ⟨i, j, hij, hj, hsum⟩
      cases i with
      | zero =>
        cases j with
        | zero => omega
        | succ j' =>
          left
          rw [List.getD_cons_zero, List.getD_cons_succ] at hsum
          have hj' : j' < rest.length := by
            simp only [List.length_cons] at hj
            omega
          refine ⟨rest.getD j' 0, ?_, by rw [beq_iff_eq]; exact hsum⟩
          rw [List.getD_eq_getElem _ _ hj']
          exact List.getElem_mem hj'
      | succ i' =>
        cases j with
        | zero => omega
        | succ j' =>
          right
          rw [List.getD_cons_succ, List.getD_cons_succ] at hsum
          exact ⟨i', j', by omega, by simp only [List.length_cons] at hj; omega, hsum⟩

/-- The full list of currently exposed values: exposed pyramid cards first
(row-major), then the waste top, each counted once. -/
def GameState.allExposedValues (s : GameState) : List Nat :=
  s.exposedPyramidValues ++
    (match s.waste.getLast? with
     | some c => [c.value]
     | none => [])

/-- C6: `legal_moves_remaining()` returns true iff the stock is non-empty,
or the waste is non-empty and a redeal is still available, or some exposed
pyramid card is a King, or the waste top is a King, or two distinct
currently-exposed cards (exposed pyramid cards plus the waste top, each
counted once) have values summing to exactly 13. -/
theorem C6_legal_moves_iff (s : GameState) :
    s.legal_moves_remaining = true ↔
      (s.stock ≠ [] ∨ (s.waste ≠ [] ∧ s.redeals_used < s.max_redeals)
        ∨ (∃ r c card, s.pyramid.card_at r c = some card ∧
            s.pyramid.is_exposed r c = true ∧ card.value = 13)
        ∨ (∃ card, s.waste.getLast? = some card ∧ card.value = 13)
        ∨ (∃ i j, i < j ∧ j < s.allExposedValues.length ∧
            s.allExposedValues.getD i 0 + s.allExposedValues.getD j 0 = 13)) := by
  simp only [GameState.legal_moves_remaining]
  by_cases hst : s.stock = []
  case neg =>
    rw [if_pos (by simp [List.isEmpty_eq_false.mpr hst])]
    simp only [true_iff]
    exact Or.inl hst
  case pos =>
    by_cases hwr : s.waste ≠ [] ∧ s.redeals_used < s.max_redeals
    case pos =>
      rw [if_pos (by simp [List.isEmpty_eq_false.mpr hwr.1, hwr.2])]
      simp only [true_iff]
      exact Or.inr (Or.inl hwr)
    case neg =>
      have hcond : (!s.stock.isEmpty
          || (!s.waste.isEmpty && decide (s.redeals_used < s.max_redeals))) = false := by
        rw [hst]
        simp only [List.isEmpty_nil, Bool.not_true, Bool.false_or]
        by_cases hw : s.waste = []
        · simp [hw]
        · have hrd : ¬(s.redeals_used < s.max_redeals) := fun h => hwr ⟨hw, h⟩
          simp [hrd]
      rw [if_neg (by rw [hcond]; simp)]
      by_cases hking : (s.exposedPyramidValues.any (fun v => v == 13)) = true
      · rw [if_pos hking]
        simp only [true_iff]
        obtain ⟨v, hv, hbeq⟩ := List.any_eq_true.mp hking
        obtain ⟨r, c, card, hcard, hexp, hval⟩ :=
          (mem_exposedPyramidValues s v).mp hv
        exact Or.inr (Or.inr (Or.inl ⟨r, c, card, hcard, hexp, by
          rw [hval]; exact beq_iff_eq.mp hbeq⟩))
      · rw [if_neg hking]
        have hnoking : ¬(∃ r c card, s.pyramid.card_at r c = some card ∧
            s.pyramid.is_exposed r c = true ∧ card.value = 13) := by
          rintro ⟨r, c, card, hcard, hexp, hval⟩
          exact hking (List.any_eq_true.mpr
            ⟨13, (mem_exposedPyramidValues s 13).mpr ⟨r, c, card, hcard, hexp, hval⟩,
              by decide⟩)
        cases hw : s.waste.getLast? with
        | none =>
          have hall : s.allExposedValues = s.exposedPyramidValues := by
            rw [GameState.allExposedValues, hw, List.append_nil]
          rw [hasPairSum13_iff, hall]
          constructor
          · intro h
            exact Or.inr (Or.inr (Or.inr (Or.inr h)))
          · rintro (h | h | h | h | h)
            · exact absurd h (by simp [hst])
            · exact absurd h hwr
            · exact absurd h hnoking
            · obtain ⟨card, hcs, -⟩ := h
              exact Option.noConfusion hcs
            · exact h
        | some card =>
          have hall : s.allExposedValues = s.exposedPyramidValues ++ [card.value] := by
            rw [GameState.allExposedValues, hw]
          show (if (card.value == 13) = true then true
            else hasPairSum13 (s.exposedPyramidValues ++ [card.value])) = true ↔ _
          by_cases hkc : (card.value == 13) = true
          · rw [if_pos hkc]
            simp only [true_iff]
            exact Or.inr (Or.inr (Or.inr (Or.inl ⟨card, rfl, beq_iff_eq.mp hkc⟩)))
          · rw [if_neg hkc]
            rw [hasPairSum13_iff, ← hall]
            constructor
            · intro h
              exact Or.inr (Or.inr (Or.inr (Or.inr h)))
            · rintro (h | h | h | h | h)
              · exact absurd h (by simp [hst])
              · exact absurd h hwr
              · exact absurd h hnoking
              · obtain ⟨card', hcs, hval'⟩ := h
                obtain rfl : card = card' := Option.some.inj hcs
                exact absurd (beq_iff_eq.mpr hval') hkc
              · exact h

/-! ## Claim theorems -/

/-- C1: for every reachable game state and every command among `draw`,
`remove_king`, `remove_pair` and `redeal` that returns true, a subsequent
`undo` returns true and restores the entire prior state — in particular
the pyramid, stock, waste, `removed_count` and `redeals_used`. -/
theorem C1_command_undo_roundtrip (s : GameState) (c : Cmd)
    (hreach : Reachable s) (hcmd : c ≠ Cmd.undo)
    (hsucc : (s.applyCmd c).1 = true) :
    ((s.applyCmd c).2.undo).1 = true ∧ ((s.applyCmd c).2.undo).2 = s := by
  have hi := hreach.inv
  cases c with
  | draw =>
    rw [show s.applyCmd Cmd.draw = s.draw from rfl] at hsucc ⊢
    rw [s.draw_roundtrip hsucc]
    exact ⟨rfl, rfl⟩
  | removeKing loc =>
    rw [show s.applyCmd (Cmd.removeKing loc) = s.remove_king loc from rfl] at hsucc ⊢
    rw [s.remove_king_roundtrip loc hi.dimsLen hi.dims hi.flags hsucc]
    exact ⟨rfl, rfl⟩
  | removePair f g =>
    rw [show s.applyCmd (Cmd.removePair f g) = s.remove_pair f g from rfl] at hsucc ⊢
    rw [s.remove_pair_roundtrip f g hi.dimsLen hi.dims hi.flags hsucc]
    exact ⟨rfl, rfl⟩
  | redeal =>
    rw [show s.applyCmd Cmd.redeal = s.redeal from rfl] at hsucc ⊢
    rw [s.redeal_roundtrip hsucc]
    exact ⟨rfl, rfl⟩
  | undo => exact absurd rfl hcmd

/-- Witness for C1: draw from the fresh-deck game, then undo. -/
theorem C1_witness :
    (((GameState.newGameFrom freshDeckCards none 0).applyCmd Cmd.draw).2.undo).1 = true ∧
      (((GameState.newGameFrom freshDeckCards none 0).applyCmd Cmd.draw).2.undo).2
        = GameState.newGameFrom freshDeckCards none 0 :=
  C1_command_undo_roundtrip _ Cmd.draw
    (Reachable.init freshDeckCards (List.Perm.refl _) none 0)
    (by decide) (by decide)

/-- C5: whenever any of the five commands returns false, the state is
unchanged — all validity checks run before any mutation, and no partial
pair removal is observable. -/
theorem C5_failed_command_frame (s : GameState) (c : Cmd)
    (h : (s.applyCmd c).1 = false) : (s.applyCmd c).2 = s := by
  cases c with
  | draw => exact s.draw_false_frame h
  | removeKing loc => exact s.remove_king_false_frame loc h
  | removePair f g => exact s.remove_pair_false_frame f g h
  | redeal => exact s.redeal_false_frame h
  | undo => exact s.undo_false_frame h

/-- Witness for C5: undo on a fresh game fails (empty history) and leaves
the state unchanged. -/
theorem C5_witness :
    ((GameState.newGameFrom freshDeckCards none 0).applyCmd Cmd.undo).1 = false ∧
      ((GameState.newGameFrom freshDeckCards none 0).applyCmd Cmd.undo).2
        = GameState.newGameFrom freshDeckCards none 0 :=
  ⟨by decide, C5_failed_command_frame _ Cmd.undo (by decide)⟩

/-- The fresh deck with the King of clubs moved to position 23 (the top of
the stock after the deal) and the Jack of diamonds to position 12. -/
def kingDeck : List Card :=
  (freshDeckCards.set 12 ⟨Rank.jack, Suit.diamonds⟩).set 23 ⟨Rank.king, Suit.clubs⟩

theorem kingDeck_perm : kingDeck.Perm freshDeckCards := by decide

/-- A reachable state whose waste holds the King of clubs as its only card. -/
def kingWasteState : GameState := ((GameState.newGameFrom kingDeck none 0).draw).2

theorem kingWasteState_reachable : Reachable kingWasteState :=
  Reachable.draw _ (Reachable.init kingDeck kingDeck_perm none 0)

/-- C2 (amended): in every reachable state, `removed_count` equals the
number of empty pyramid cells, and occupied pyramid cells + stock + waste
+ `removed_count` + the number of cards removed from the waste (recorded
in the history) equals 52.  The bare four-term sum of the original claim
drops below 52 whenever a card is removed from the waste. -/
theorem C2_amended_conservation (s : GameState) (h : Reachable s) :
    s.removed_count = (countNoneCells s.pyramid.rows : Int) ∧
      (countSomeCells s.pyramid.rows : Int) + s.stock.length + s.waste.length
        + s.removed_count + (wasteRemovedCount s.history : Int) = 52 :=
  ⟨h.inv.count, h.inv.total⟩

/-- Witness for C2 (amended) at a state that has removed a card from the
waste. -/
theorem C2_amended_witness :
    (kingWasteState.remove_king ⟨LocKind.waste, 0, 0⟩).2.removed_count
        = (countNoneCells (kingWasteState.remove_king
            ⟨LocKind.waste, 0, 0⟩).2.pyramid.rows : Int) ∧
      (countSomeCells (kingWasteState.remove_king
            ⟨LocKind.waste, 0, 0⟩).2.pyramid.rows : Int)
        + (kingWasteState.remove_king ⟨LocKind.waste, 0, 0⟩).2.stock.length
        + (kingWasteState.remove_king ⟨LocKind.waste, 0, 0⟩).2.waste.length
        + (kingWasteState.remove_king ⟨LocKind.waste, 0, 0⟩).2.removed_count
        + (wasteRemovedCount (kingWasteState.remove_king
            ⟨LocKind.waste, 0, 0⟩).2.history : Int) = 52 :=
  C2_amended_conservation _ (Reachable.remove_king _ _ kingWasteState_reachable)

/-- C2 counterexample: after drawing the King of clubs and removing it from
the waste, the state is reachable but occupied pyramid cells + stock +
waste + `removed_count` is 51, not 52 — removing a waste card updates no
counter. -/
theorem C2_counterexample :
    Reachable (kingWasteState.remove_king ⟨LocKind.waste, 0, 0⟩).2 ∧
      ¬((countSomeCells (kingWasteState.remove_king
            ⟨LocKind.waste, 0, 0⟩).2.pyramid.rows : Int)
          + (kingWasteState.remove_king ⟨LocKind.waste, 0, 0⟩).2.stock.length
          + (kingWasteState.remove_king ⟨LocKind.waste, 0, 0⟩).2.waste.length
          + (kingWasteState.remove_king ⟨LocKind.waste, 0, 0⟩).2.removed_count
          = 52) :=
  ⟨Reachable.remove_king _ _ kingWasteState_reachable, by decide⟩

/-- C10: whenever `undo` pops a `draw` move in a reachable state, the waste
is non-empty and its top is the recorded card, so the assertion inside
`undo_draw` never fails. -/
theorem C10_undo_draw_assertion (s : GameState) (c : Card)
    (hreach : Reachable s) (hlast : s.history.getLast? = some (Move.draw c)) :
    undoDrawAssertion s c := by
  have htop := hreach.inv.lastDraw c hlast
  exact ⟨ne_nil_of_getLast? _ _ htop, htop⟩

/-- Witness for C10: after one draw from the fresh-deck game the last move
is `draw J♦` and the waste top is J♦. -/
theorem C10_witness :
    undoDrawAssertion ((GameState.newGameFrom freshDeckCards none 0).draw).2
      ⟨Rank.jack, Suit.diamonds⟩ :=
  C10_undo_draw_assertion _ _
    (Reachable.draw _ (Reachable.init freshDeckCards (List.Perm.refl _) none 0))
    (by decide)

/-- C3 (amended): on every successful `redeal`, the new stock is the old
stock followed by the reversed waste, the waste empties, `redeals_used`
increments — and the EARLIEST discarded card (the first element of the
waste, which ends up on top of the new stock) becomes the next card that
`draw` moves onto the waste.  The original claim named the most recently
discarded card instead. -/
theorem C3_amended_redeal (s : GameState) (h : (s.redeal).1 = true) :
    (s.redeal).2.stock = s.stock ++ s.waste.reverse ∧
      (s.redeal).2.waste = [] ∧
      (s.redeal).2.redeals_used = s.redeals_used + 1 ∧
      ((s.redeal).2.draw).1 = true ∧
      ((s.redeal).2.draw).2.waste.getLast? = s.waste.head? := by
  rw [GameState.redeal] at h ⊢
  by_cases h1 : s.redeals_used ≥ s.max_redeals
  · rw [if_pos h1] at h
    exact absurd h (by simp)
  · rw [if_neg h1] at h ⊢
    by_cases h2 : s.waste.isEmpty = true
    · rw [if_pos h2] at h
      exact absurd h (by simp)
    · rw [if_neg h2]
      have hwne : s.waste ≠ [] := by simpa using h2
      obtain ⟨hd, tl, hht⟩ := List.exists_cons_of_ne_nil hwne
      have hrl : (s.stock ++ s.waste.reverse).getLast? = some hd := by
        rw [List.getLast?_append_of_ne_nil _ (by simp [hht]),
          List.getLast?_reverse, hht]
        rfl
      refine ⟨rfl, rfl, rfl, ?_, ?_⟩
      · rw [GameState.draw]
        simp only [hrl]
      · rw [GameState.draw]
        simp only [hrl]
        rw [List.getLast?_concat, hht]
        rfl

/-- A reachable two-draw state with `max_redeals = 1`: waste is
[J♦, 10♦], with 10♦ the most recent discard. -/
def twoDrawState : GameState :=
  (((GameState.newGameFrom freshDeckCards none 1).draw).2.draw).2

/-- Witness for C3 (amended) at the two-draw state. -/
theorem C3_amended_witness :
    (twoDrawState.redeal).1 = true ∧
      ((twoDrawState.redeal).2.stock
          = twoDrawState.stock ++ twoDrawState.waste.reverse ∧
        (twoDrawState.redeal).2.waste = [] ∧
        (twoDrawState.redeal).2.redeals_used = twoDrawState.redeals_used + 1 ∧
        ((twoDrawState.redeal).2.draw).1 = true ∧
        ((twoDrawState.redeal).2.draw).2.waste.getLast? = twoDrawState.waste.head?) :=
  ⟨by decide, C3_amended_redeal _ (by decide)⟩

/-- C3 counterexample: in the two-draw state the most recent discard is
10♦, yet after the redeal the next drawn card is J♦ (the earliest
discard), so "the most recently discarded card becomes the next card that
draw() moves onto the waste" fails. -/
theorem C3_counterexample :
    Reachable twoDrawState ∧
      twoDrawState.waste.getLast? = some ⟨Rank.ten, Suit.diamonds⟩ ∧
      (twoDrawState.redeal).1 = true ∧
      ((twoDrawState.redeal).2.draw).1 = true ∧
      ((twoDrawState.redeal).2.draw).2.waste.getLast?
        = some ⟨Rank.jack, Suit.diamonds⟩ ∧
      (⟨Rank.jack, Suit.diamonds⟩ : Card) ≠ ⟨Rank.ten, Suit.diamonds⟩ :=
  ⟨Reachable.draw _ (Reachable.draw _
      (Reachable.init freshDeckCards (List.Perm.refl _) none 1)),
    by decide, by decide, by decide, by decide, by decide⟩

/-- C4 (amended): `remove_king` on a waste location never inspects the
index: with a non-empty waste it succeeds exactly when the waste top is a
King (whatever the index), and whenever it fails the state is unchanged.
The original claim — that a waste location whose index is not the top
index always fails — is false. -/
theorem C4_amended_waste_king (s : GameState) (a b : Nat) :
    ((s.remove_king ⟨LocKind.waste, a, b⟩).1 = true ↔
      ∃ c, s.waste.getLast? = some c ∧ c.value = 13) ∧
    ((s.remove_king ⟨LocKind.waste, a, b⟩).1 = false →
      (s.remove_king ⟨LocKind.waste, a, b⟩).2 = s) := by
  refine ⟨?_, fun h => s.remove_king_false_frame _ h⟩
  rw [GameState.remove_king]
  simp only
  split
  · rename_i c hc
    by_cases hv : (c.value == 13) = true
    · rw [if_pos hv]
      exact ⟨fun _ => ⟨c, hc, beq_iff_eq.mp hv⟩, fun _ => rfl⟩
    · rw [if_neg hv]
      constructor
      · intro h
        exact absurd h (by simp)
      · rintro ⟨c', hcs, hval⟩
        rw [hc] at hcs
        obtain rfl : c = c' := Option.some.inj hcs
        exact absurd (beq_iff_eq.mpr hval) hv
  · rename_i hc
    constructor
    · intro h
      exact absurd h (by simp)
    · rintro ⟨c, hcs, -⟩
      rw [hc] at hcs
      exact Option.noConfusion hcs

/-- Witness for C4 (amended): on the fresh game (empty waste) the call
fails and the state is unchanged. -/
theorem C4_amended_witness :
    ((GameState.newGameFrom freshDeckCards none 0).remove_king
        ⟨LocKind.waste, 3, 0⟩).1 = false ∧
      ((GameState.newGameFrom freshDeckCards none 0).remove_king
          ⟨LocKind.waste, 3, 0⟩).2 = GameState.newGameFrom freshDeckCards none 0 :=
  ⟨by decide,
    (C4_amended_waste_king (GameState.newGameFrom freshDeckCards none 0) 3 0).2
      (by decide)⟩

/-- C4 counterexample: the waste is [K♣] (top index 0), yet `remove_king`
at waste index 7 — not the top index — returns true, removing the top. -/
theorem C4_counterexample :
    Reachable kingWasteState ∧
      kingWasteState.waste ≠ [] ∧
      (7 : Nat) ≠ kingWasteState.waste.length - 1 ∧
      (kingWasteState.remove_king ⟨LocKind.waste, 7, 0⟩).1 = true :=
  ⟨kingWasteState_reachable, by decide, by decide, by decide⟩

/-- C7: for every row `r` and column `c` with `c ≤ r ≤ 6`, in a reachable
state `is_exposed(r, c)` is true iff the cell holds a card and either
`r = 6` (the last row) or both cells directly below are empty. -/
theorem C7_is_exposed_iff (s : GameState) (r c : Nat) (hreach : Reachable s)
    (hr : r ≤ 6) (hc : c ≤ r) :
    (s.pyramid.is_exposed r c = true ↔
      (∃ card, s.pyramid.card_at r c = some card) ∧
        (r = 6 ∨ (s.pyramid.card_at (r + 1) c = none ∧
          s.pyramid.card_at (r + 1) (c + 1) = none))) := by
  have h7 := hreach.inv.rowsLen
  rw [Pyramid.is_exposed, h7]
  cases hcard : s.pyramid.card_at r c with
  | none =>
    simp only [Bool.false_eq_true, false_iff]
    rintro ⟨⟨card, hcs⟩, -⟩
    exact Option.noConfusion hcs
  | some card =>
    simp only
    by_cases hr6 : r = 6
    · rw [if_pos (by rw [hr6]; rfl)]
      exact ⟨fun _ => ⟨⟨card, rfl⟩, Or.inl hr6⟩, fun _ => rfl⟩
    · rw [if_neg (by simpa using hr6)]
      constructor
      · intro h
        rw [Bool.and_eq_true, Option.isNone_iff_eq_none,
          Option.isNone_iff_eq_none] at h
        exact ⟨⟨card, rfl⟩, Or.inr h⟩
      · rintro ⟨-, h | h⟩
        · exact absurd h hr6
        · rw [Bool.and_eq_true, Option.isNone_iff_eq_none,
            Option.isNone_iff_eq_none]
          exact h

/-- Witness for C7: cell (6, 0) of the fresh-deck game. -/
theorem C7_witness :
    (6 : Nat) ≤ 6 ∧ (0 : Nat) ≤ 6 ∧
    ((GameState.newGameFrom freshDeckCards none 0).pyramid.is_exposed 6 0 = true ↔
      (∃ card, (GameState.newGameFrom freshDeckCards none 0).pyramid.card_at 6 0
          = some card) ∧
        (6 = 6 ∨
          ((GameState.newGameFrom freshDeckCards none 0).pyramid.card_at (6 + 1) 0
              = none ∧
            (GameState.newGameFrom freshDeckCards none 0).pyramid.card_at (6 + 1) (0 + 1)
              = none))) :=
  ⟨by decide, by decide,
    C7_is_exposed_iff _ 6 0
      (Reachable.init freshDeckCards (List.Perm.refl _) none 0)
      (by decide) (by decide)⟩

/-- C8: two games constructed with the same shuffle function, seed and
redeal limit have identical pyramids, identical stocks, and both have an
empty waste. -/
theorem C8_new_game_deterministic
    (shuffle : Option Int → List Card → List Card) (seed : Option Int) (m : Int)
    (g1 g2 : GameState) (h1 : g1 = GameState.newGame shuffle seed m)
    (h2 : g2 = GameState.newGame shuffle seed m) :
    g1.pyramid = g2.pyramid ∧ g1.stock = g2.stock ∧ g1.waste = [] ∧ g2.waste = [] := by
  subst h1
  subst h2
  exact ⟨rfl, rfl, rfl, rfl⟩

/-- Witness for C8 with a concrete (identity) shuffle. -/
theorem C8_witness :
    (GameState.newGame (fun _ cards => cards) none 0).pyramid
        = (GameState.newGame (fun _ cards => cards) none 0).pyramid ∧
      (GameState.newGame (fun _ cards => cards) none 0).stock
        = (GameState.newGame (fun _ cards => cards) none 0).stock ∧
      (GameState.newGame (fun _ cards => cards) none 0).waste = [] ∧
      (GameState.newGame (fun _ cards => cards) none 0).waste = [] :=
  C8_new_game_deterministic _ none 0 _ _ rfl rfl

/-- A reset with a provided seed ignores the per-call entropy and uses the
deck determined by the seed. -/
theorem GameState.reset_of_seed (seededShuffle : Int → List Card → List Card)
    (entropy : List Card) (s : GameState) (k : Int) (hseed : s.seed = some k) :
    GameState.reset seededShuffle entropy s
      = s.resetFrom (seededShuffle k freshDeckCards) := by
  simp only [GameState.reset, hseed]

/-- C9 (amended): `reset()` is idempotent for every game with a provided
seed — `Deck(seed)` is then a deterministic function of the seed alone, so
a second `reset()` rebuilds exactly the state of the first, whatever fresh
entropy either call could otherwise have drawn.  With `seed = None` (the
constructor's default) every call reshuffles from fresh OS entropy, and
idempotence fails (see the counterexample). -/
theorem C9_amended_reset_idempotent
    (seededShuffle : Int → List Card → List Card) (e1 e2 : List Card)
    (s : GameState) (k : Int) (hseed : s.seed = some k) :
    GameState.reset seededShuffle e2 (GameState.reset seededShuffle e1 s)
      = GameState.reset seededShuffle e1 s := by
  rw [GameState.reset_of_seed seededShuffle e1 s k hseed]
  rw [GameState.reset_of_seed seededShuffle e2
    (s.resetFrom (seededShuffle k freshDeckCards)) k hseed]
  rfl

/-- Witness for C9 (amended): a seeded game reset twice, with different
entropy available to the two calls. -/
theorem C9_amended_witness :
    GameState.reset (fun _ cards => cards) freshDeckCards
        (GameState.reset (fun _ cards => cards) kingDeck
          (GameState.newGameFrom freshDeckCards (some 1) 0))
      = GameState.reset (fun _ cards => cards) kingDeck
          (GameState.newGameFrom freshDeckCards (some 1) 0) :=
  C9_amended_reset_idempotent (fun _ cards => cards) kingDeck freshDeckCards
    (GameState.newGameFrom freshDeckCards (some 1) 0) 1 rfl

/-- The fresh deck with its last two cards (Q♠ at index 50, K♠ at index 51)
swapped — another legitimate outcome of shuffling with fresh entropy. -/
def swappedTopDeck : List Card :=
  (freshDeckCards.set 50 ⟨Rank.king, Suit.spades⟩).set 51 ⟨Rank.queen, Suit.spades⟩

theorem swappedTopDeck_perm : swappedTopDeck.Perm freshDeckCards := by decide

/-- C9 counterexample: with `seed = None` each `reset()` reseeds
`random.Random` from fresh OS entropy, so successive resets may shuffle to
different decks.  Two legitimate successive outcomes — the unpermuted deck,
then the deck with its last two cards swapped — leave a different pyramid
layout after the second reset than after the first (the apex card changes
from K♠ to Q♠), so `reset()` is not idempotent as originally claimed. -/
theorem C9_counterexample :
    swappedTopDeck.Perm freshDeckCards ∧
      (GameState.reset (fun _ cards => cards) swappedTopDeck
          (GameState.reset (fun _ cards => cards) freshDeckCards
            (GameState.newGameFrom freshDeckCards none 0))).pyramid
        ≠ (GameState.reset (fun _ cards => cards) freshDeckCards
            (GameState.newGameFrom freshDeckCards none 0)).pyramid :=
  ⟨swappedTopDeck_perm, by decide⟩
